import Mathlib

/-!
Verification of the core array abstraction of the OpenCV excerpt
(`modules/core/include/opencv2/core/mat.hpp`).

The header in `src/` only declares the classes `Mat`, `SparseMat`,
`_InputArray` and their operations; the bodies live in `mat.inl.hpp` /
`matrix.cpp`, which are not part of the excerpt.  The constants and field
layouts that *are* present in the header (enum values such as
`KIND_SHIFT`, `MAX_DIM`, `HASH_SCALE`, `TYPE_MASK`, the documented address
formula `addr(M_ij) = M.data + M.step*i + j*M.elemSize()`, and the
`Hdr`/`Node` record layout of `SparseMat`) are embedded directly.  Each
operation whose body is missing is modelled from the specification and is
marked `Modelled from the spec:` in its doc comment.
-/

namespace OcvCore

/-! ## Constants taken verbatim from the header -/

/-- `_InputArray::KIND_SHIFT` (mat.hpp line 63). -/
def KIND_SHIFT : Nat := 16

/-- `_InputArray::FIXED_TYPE = 0x8000 << KIND_SHIFT` (mat.hpp line 64). -/
def FIXED_TYPE : Nat := 0x8000 <<< KIND_SHIFT

/-- `_InputArray::FIXED_SIZE = 0x4000 << KIND_SHIFT` (mat.hpp line 65). -/
def FIXED_SIZE : Nat := 0x4000 <<< KIND_SHIFT

/-- `_InputArray` kind codes `NONE .. GPU_MAT = k << KIND_SHIFT` (mat.hpp lines 68-77). -/
def kindCode (k : Nat) : Nat := k <<< KIND_SHIFT

/-- `Mat::TYPE_MASK = 0x00000FFF` (mat.hpp line 719). -/
def TYPE_MASK : Nat := 0x00000FFF

/-- `Mat::DEPTH_MASK = 7` (mat.hpp line 719). -/
def DEPTH_MASK : Nat := 7

/-- Modelled from the spec: the channel-count field starts at bit 3
(`CV_CN_SHIFT`; the `cvdef` header defining it is not part of the excerpt;
the spec fixes bits 3..11 as channel count minus one). -/
def CN_SHIFT : Nat := 3

/-- Modelled from the spec: `CV_SUBMAT_FLAG` (referenced by
`Mat::SUBMATRIX_FLAG`, mat.hpp line 718) is not defined in the excerpt;
the spec fixes bit 14 as the submatrix flag. -/
def SUBMATRIX_FLAG : Nat := 1 <<< 14

/-- Modelled from the spec: `CV_MAT_CONT_FLAG` (referenced by
`Mat::CONTINUOUS_FLAG`, mat.hpp line 718) is not defined in the excerpt;
the spec fixes bit 15 as the continuous flag. -/
def CONTINUOUS_FLAG : Nat := 1 <<< 15

/-- Modelled from the spec: `CV_MAKETYPE(depth, cn)` packs the depth code in
bits 0..2 and the channel count minus one starting at bit `CN_SHIFT`. -/
def makeType (depth cn : Nat) : Nat := (depth &&& DEPTH_MASK) + ((cn - 1) <<< CN_SHIFT)

/-- Depth extraction: `type & DEPTH_MASK` (`CV_MAT_DEPTH`). -/
def typeDepth (t : Nat) : Nat := t &&& DEPTH_MASK

/-- Channel extraction: `((type & TYPE_MASK) >> CN_SHIFT) + 1` (`CV_MAT_CN`). -/
def typeChannels (t : Nat) : Nat := ((t &&& TYPE_MASK) >>> CN_SHIFT) + 1

/-! ## Shared storage and the byte-addressed world

Each dense storage block is identified by a `Nat` id; a `World` maps a
storage id and a byte address to the element value stored at that address.
An element occupies the byte range starting at its base address; the model
records the value at the base address. -/

/-- Memory of all storage blocks: storage id, then byte address, to value. -/
def World : Type := Nat → Nat → Int

/-- Write one element value at a byte address of one storage block. -/
def World.write (w : World) (sid a : Nat) (v : Int) : World :=
  fun s x => if s = sid then (if x = a then v else w s x) else w s x

/-! ## The dense matrix header

Mirrors the data members of `class Mat` (mat.hpp lines 727-776): extents
`rows`/`cols`, the byte stride `step`, the packed type information (kept
here as the unpacked `channels`/`elemSize1` pair), the data pointer
(`dataOfs` is the byte offset of `data` from the start of the storage
block), the shared storage reference, and the two status bits. -/

structure Mat where
  rows : Nat
  cols : Nat
  /-- byte stride between successive rows (`Mat::step`) -/
  step : Nat
  /-- number of channels encoded in `Mat::flags` -/
  channels : Nat
  /-- byte size of one channel (`Mat::elemSize1()`) -/
  elemSize1 : Nat
  /-- byte offset of `Mat::data` inside the storage block -/
  dataOfs : Nat
  /-- identity of the `SharedStorage` block this header aliases -/
  storageId : Nat
  /-- submatrix bit of `Mat::flags` -/
  submat : Bool
  /-- continuity bit of `Mat::flags` -/
  continuous : Bool
deriving DecidableEq

/-- `Mat::elemSize()`: element size in bytes. -/
def Mat.elemSize (m : Mat) : Nat := m.channels * m.elemSize1

/-- The documented address formula (mat.hpp line 395):
`addr(M_ij) = M.data + M.step*i + j*M.elemSize()`. -/
def Mat.addr (m : Mat) (i j : Nat) : Nat := m.dataOfs + m.step * i + j * m.elemSize

/-- Reading an element through `Mat::at` resolves the documented address
inside the aliased storage block. -/
def Mat.readAt (w : World) (m : Mat) (i j : Nat) : Int := w m.storageId (m.addr i j)

/-- Writing an element through `Mat::at`. -/
def Mat.writeAt (w : World) (m : Mat) (i j : Nat) (v : Int) : World :=
  World.write w m.storageId (m.addr i j) v

/-- Modelled from the spec: the continuity bit is recomputed on every
operation that changes extents (`no padding`; a single row is trivially
continuous). -/
def contBit (rows cols step elemSize : Nat) : Bool :=
  rows ≤ 1 || step == cols * elemSize

/-! ## Slicing operations

The bodies of `Mat::row/col/rowRange/colRange/diag/operator()` are not in
the excerpt; each is modelled from the spec sentence: construct a view
sharing the same storage, advance the data pointer by `offset*step`,
narrow the extents, set the submatrix bit, recompute the continuity bit. -/

/-- Modelled from the spec: `Mat::row(y)`. -/
def Mat.rowView (m : Mat) (y : Nat) : Mat :=
  { m with rows := 1, dataOfs := m.dataOfs + y * m.step, submat := true,
           continuous := contBit 1 m.cols m.step m.elemSize }

/-- Modelled from the spec: `Mat::col(x)`. -/
def Mat.colView (m : Mat) (x : Nat) : Mat :=
  { m with cols := 1, dataOfs := m.dataOfs + x * m.elemSize, submat := true,
           continuous := contBit m.rows 1 m.step m.elemSize }

/-- Modelled from the spec: `Mat::rowRange(a, b)`. -/
def Mat.rowRangeView (m : Mat) (a b : Nat) : Mat :=
  { m with rows := b - a, dataOfs := m.dataOfs + a * m.step, submat := true,
           continuous := contBit (b - a) m.cols m.step m.elemSize }

/-- Modelled from the spec: `Mat::colRange(a, b)`. -/
def Mat.colRangeView (m : Mat) (a b : Nat) : Mat :=
  { m with cols := b - a, dataOfs := m.dataOfs + a * m.elemSize, submat := true,
           continuous := contBit m.rows (b - a) m.step m.elemSize }

/-- Modelled from the spec: `Mat::diag(d)`; `d >= 0` selects a diagonal
from the lower half, `d < 0` from the upper half (mat.hpp lines 523-525);
the result is a column vector stepping by `step + elemSize`. -/
def Mat.diagView (m : Mat) (d : Int) : Mat :=
  let r0 : Nat := d.toNat
  let c0 : Nat := (-d).toNat
  let len : Nat := min (m.rows - r0) (m.cols - c0)
  { rows := len, cols := 1, step := m.step + m.elemSize,
    channels := m.channels, elemSize1 := m.elemSize1,
    dataOfs := m.dataOfs + r0 * m.step + c0 * m.elemSize,
    storageId := m.storageId, submat := true,
    continuous := contBit len 1 (m.step + m.elemSize) m.elemSize }

/-- Modelled from the spec: `Mat::operator()(Rect)` / region selection. -/
def Mat.regionView (m : Mat) (r0 c0 h wd : Nat) : Mat :=
  { m with rows := h, cols := wd,
           dataOfs := m.dataOfs + r0 * m.step + c0 * m.elemSize, submat := true,
           continuous := contBit h wd m.step m.elemSize }

/-- The slicing operations named by the spec, as one datatype. -/
inductive SliceOp where
  | row (y : Nat)
  | col (x : Nat)
  | rowRange (a b : Nat)
  | colRange (a b : Nat)
  | diag (d : Int)
  | region (r0 c0 h wd : Nat)
deriving DecidableEq

/-- Dispatch a slicing operation. -/
def applySlice (m : Mat) : SliceOp → Mat
  | .row y => m.rowView y
  | .col x => m.colView x
  | .rowRange a b => m.rowRangeView a b
  | .colRange a b => m.colRangeView a b
  | .diag d => m.diagView d
  | .region r0 c0 h wd => m.regionView r0 c0 h wd

/-- Per-dimension offsets (row offset, column offset) of a view inside its
parent: the data pointer advances by `ofs.1*step + ofs.2*elemSize`. -/
def sliceOfs : SliceOp → Nat × Nat
  | .row y => (y, 0)
  | .col x => (0, x)
  | .rowRange a _ => (a, 0)
  | .colRange a _ => (0, a)
  | .diag d => (d.toNat, (-d).toNat)
  | .region r0 c0 _ _ => (r0, c0)

/-- The parent coordinate that aliases view coordinate `c`: `c` shifted by
the view offsets (for a diagonal view, both coordinates advance together
along the diagonal). -/
def coordMap (op : SliceOp) (c : Nat × Nat) : Nat × Nat :=
  match op with
  | .diag d => (d.toNat + c.1, (-d).toNat + c.1 + c.2)
  | _ => ((sliceOfs op).1 + c.1, (sliceOfs op).2 + c.2)

/-- Validity of the slicing parameters against the parent extents. -/
def sliceOK (m : Mat) : SliceOp → Prop
  | .row y => y < m.rows
  | .col x => x < m.cols
  | .rowRange a b => a ≤ b ∧ b ≤ m.rows
  | .colRange a b => a ≤ b ∧ b ≤ m.cols
  | .diag d => d.toNat ≤ m.rows ∧ (-d).toNat ≤ m.cols
  | .region r0 c0 h wd => r0 + h ≤ m.rows ∧ c0 + wd ≤ m.cols

instance (m : Mat) (op : SliceOp) : Decidable (sliceOK m op) := by
  cases op <;> simp only [sliceOK] <;> infer_instance

/-! ## Reference counting of shared storage

`Mat::addref/release` and the copy constructor are declared (mat.hpp lines
472, 580-583) but their bodies are not in the excerpt.  The state machine
below is modelled from the spec: one owning header at creation, every
alias copy increments the count, every release decrements it, and the
buffer is freed through the originating allocator exactly when the count
reaches zero.  `liveHeaders` is the observable number of live headers
aliasing the storage block. -/

structure RcStorage where
  /-- value of the shared `Mat::refcount` cell -/
  rc : Nat
  /-- identity of the `MatAllocator` that produced the buffer -/
  allocId : Nat
  /-- `none` while the buffer is alive; `some a` once it was freed through
  allocator `a` -/
  freedBy : Option Nat
deriving DecidableEq

structure RcState where
  stor : RcStorage
  /-- number of live headers aliasing the block -/
  liveHeaders : Nat
deriving DecidableEq

inductive RcOp where
  | aliasCopy
  | release
deriving DecidableEq

/-- Modelled from the spec: effect of one header operation on the shared
storage.  A copy increments the count; a release decrements it and frees
the buffer through the originating allocator when the count reaches zero.
Operations on an already fully released block are no-ops. -/
def rcStep (st : RcState) : RcOp → RcState
  | .aliasCopy =>
      if st.liveHeaders = 0 then st
      else { st with stor := { st.stor with rc := st.stor.rc + 1 },
                     liveHeaders := st.liveHeaders + 1 }
  | .release =>
      if st.liveHeaders = 0 then st
      else
        { stor := { rc := st.stor.rc - 1, allocId := st.stor.allocId,
                    freedBy := if st.stor.rc - 1 = 0 then some st.stor.allocId
                               else st.stor.freedBy },
          liveHeaders := st.liveHeaders - 1 }

/-- Creation: exactly one header owns the fresh storage. -/
def rcInit (a : Nat) : RcState := ⟨⟨1, a, none⟩, 1⟩

/-- Run a sequence of alias/release operations from creation. -/
def rcRun (a : Nat) (ops : List RcOp) : RcState := ops.foldl rcStep (rcInit a)

/-! ## `Mat::create`

The body (and the allocator call inside it) is not in the excerpt. -/

structure DenseShape where
  sizes : List Nat
  mtype : Nat
  storageId : Nat
deriving DecidableEq

/-- Modelled from the spec: `Mat::create(dims, extents, type)` reallocates
only if the current extents or type differ from those requested; otherwise
it is a no-op.  `alloc` is the allocator's answer (`none` = allocation
failure); on failure the previous header is returned unchanged
(all-or-nothing).  The `Bool` is the success flag. -/
def matCreate (m : DenseShape) (sizes : List Nat) (t : Nat) (alloc : Option Nat) :
    Bool × DenseShape :=
  if m.sizes = sizes ∧ m.mtype = t then (true, m)
  else
    match alloc with
    | none => (false, m)
    | some sid => (true, { sizes := sizes, mtype := t, storageId := sid })

/-! ## `Mat::clone` -/

/-- Modelled from the spec: `Mat::clone()` makes a deep copy: a new
storage block (`fresh`), contents byte-identical to the source at the
moment of cloning, laid out continuously.  Returns the new header and the
world extended with the copied block. -/
def matClone (w : World) (m : Mat) (fresh : Nat) : Mat × World :=
  let step2 := m.cols * m.elemSize
  let c : Mat :=
    { rows := m.rows, cols := m.cols, step := step2,
      channels := m.channels, elemSize1 := m.elemSize1,
      dataOfs := 0, storageId := fresh, submat := false, continuous := true }
  let w2 : World := fun s a =>
    if s = fresh then
      (if 0 < m.elemSize ∧ 0 < step2 then
        w m.storageId (m.addr (a / step2) ((a % step2) / m.elemSize))
      else w s a)
    else w s a
  (c, w2)

/-! ## `Mat::reshape` -/

inductive ReshapeErr where
  | shapeMismatch
  | notContinuous
deriving DecidableEq

/-- Modelled from the spec: `Mat::reshape(cn, newRows)` reinterprets the
same buffer with a different grouping of rows/channels; legal only when
the total byte length is unchanged (fails with a shape-mismatch condition
otherwise), and additionally requires the source to be continuous unless
the reshape does not cross row boundaries (`newRows = rows`). -/
def matReshape (m : Mat) (cn newRows : Nat) : Except ReshapeErr Mat :=
  let totalCh := m.rows * m.cols * m.channels
  if newRows * cn = 0 ∨ totalCh % (newRows * cn) ≠ 0 then .error .shapeMismatch
  else if ¬(m.continuous = true ∨ newRows = m.rows) then .error .notContinuous
  else
    let newCols := totalCh / (newRows * cn)
    .ok { m with rows := newRows, cols := newCols, channels := cn,
                 step := if m.continuous then newCols * cn * m.elemSize1 else m.step }

/-! ## The sparse matrix

`SparseMat::Hdr` and `SparseMat::Node` (mat.hpp lines 1097-1121) are
declared in the excerpt: a node pool, a hash table of bucket-head slot
indices, an intrusive free list threaded through the `next` field, and the
element count `nodeCount`.  Slot index `0` is the nil sentinel (the first
pool slot is a dummy), matching the `while(nidx)` loops of the
implementation.  The operation bodies are not in the excerpt and are
modelled from the spec. -/

/-- `SparseMat::MAX_DIM = 32` (mat.hpp line 1094). -/
def MAX_DIM : Nat := 32

/-- `SparseMat::HASH_SCALE = 0x5bd1e995` (mat.hpp line 1094). -/
def HASH_SCALE : Nat := 0x5bd1e995

/-- `SparseMat::Node` (mat.hpp lines 1113-1121): stored hash value, index
of the next node in the same hash bucket (or in the free list), the
coordinate tuple, and the inline element value. -/
structure SNode where
  hashval : Nat
  next : Nat
  idx : List Nat
  value : Int
deriving DecidableEq

instance : Inhabited SNode := ⟨⟨0, 0, [], 0⟩⟩

/-- `SparseMat::Hdr` (mat.hpp lines 1097-1110): dimensionality, extents,
node pool, hash table, free-list head and non-zero count. -/
structure SparseHdr where
  dims : Nat
  sizes : List Nat
  pool : List SNode
  hashtab : List Nat
  freeList : Nat
  nodeCount : Nat
deriving DecidableEq

/-- `SparseMat::node(nidx)`: the pool slot at index `nidx`. -/
def snode (pool : List SNode) (i : Nat) : SNode := pool.getD i default

/-- Modelled from the spec: the coordinate hash — a deterministic
multiplicative mix of all coordinates with the constant `HASH_SCALE`
(`SparseMat::hash`, declared mat.hpp lines 1204-1210), in `size_t`
arithmetic. -/
def schash (idx : List Nat) : Nat :=
  match idx with
  | [] => 0
  | i0 :: rest => rest.foldl (fun h i => (h * HASH_SCALE + i) % 2 ^ 64) (i0 % 2 ^ 64)

/-- Follow a `next` chain from `nidx`, collecting slot indices; `fuel`
bounds the walk (slot 0 terminates a chain). -/
def chainNodes (pool : List SNode) : Nat → Nat → List Nat
  | 0, _ => []
  | fuel + 1, nidx =>
      if nidx = 0 then [] else nidx :: chainNodes pool fuel (snode pool nidx).next

/-- Walk a bucket chain comparing the stored hash and the full coordinate
tuple (hash collisions require tuple comparison). -/
def findInChain (pool : List SNode) (hv : Nat) (k : List Nat) : Nat → Nat → Option Nat
  | 0, _ => none
  | fuel + 1, nidx =>
      if nidx = 0 then none
      else if (snode pool nidx).hashval = hv ∧ (snode pool nidx).idx = k then some nidx
      else findInChain pool hv k fuel (snode pool nidx).next

/-- Walk a bucket chain keeping the predecessor slot (0 while at the
head), as `SparseMat::erase` does; returns `(previdx, nidx)`. -/
def findPred (pool : List SNode) (hv : Nat) (k : List Nat) :
    Nat → Nat → Nat → Option (Nat × Nat)
  | 0, _, _ => none
  | fuel + 1, prev, nidx =>
      if nidx = 0 then none
      else if (snode pool nidx).hashval = hv ∧ (snode pool nidx).idx = k then
        some (prev, nidx)
      else findPred pool hv k fuel nidx (snode pool nidx).next

/-- Modelled from the spec: lookup of a coordinate tuple
(`SparseMat::ptr` with `createMissing = false`); `none` is the null
sentinel. -/
def sfind (s : SparseHdr) (k : List Nat) : Option Nat :=
  if s.hashtab.length = 0 then none
  else findInChain s.pool (schash k) k s.pool.length
        (s.hashtab.getD (schash k % s.hashtab.length) 0)

/-- Modelled from the spec: the fixed load-factor threshold — grow once
`nodeCount / hashtab.length` exceeds `2/3`. -/
def hashGrow (count len : Nat) : Bool := len * 2 < count * 3

/-- Modelled from the spec: re-link one old bucket chain into the new
table, reusing each node's already-stored hash value (no recomputation),
pushing each node at the head of its new bucket. -/
def rehashChain (pool : List SNode) (tab : List Nat) : Nat → Nat → List SNode × List Nat
  | 0, _ => (pool, tab)
  | fuel + 1, nidx =>
      if nidx = 0 then (pool, tab)
      else
        rehashChain
          (pool.set nidx { snode pool nidx with
            next := tab.getD ((snode pool nidx).hashval % tab.length) 0 })
          (tab.set ((snode pool nidx).hashval % tab.length) nidx) fuel
          (snode pool nidx).next

/-- Modelled from the spec: `SparseMat::resizeHashTab` (declared mat.hpp
line 1336): allocate a fresh table of `newsize` empty buckets and walk
every old bucket, re-linking its reachable nodes. -/
def resizeHashTab (s : SparseHdr) (newsize : Nat) : SparseHdr :=
  let r := s.hashtab.foldl (fun acc h => rehashChain acc.1 acc.2 s.pool.length h)
            (s.pool, List.replicate newsize 0)
  { s with pool := r.1, hashtab := r.2 }

/-- The bucket walk of `resizeHashTab`, as a named function. -/
def rehashFold (fuel : Nat) (acc : List SNode × List Nat) (heads : List Nat) :
    List SNode × List Nat :=
  heads.foldl (fun acc h => rehashChain acc.1 acc.2 fuel h) acc

/-- Modelled from the spec: `SparseMat::newNode` (declared mat.hpp line
1334): bump `nodeCount`, rehash if the load factor was exceeded (to the
doubled, still power-of-two size), take a slot from the free list if one
is available (else grow the pool), fill the node with the stored hash,
the coordinates and a zero value, and link it at the head of its bucket. -/
def growStep (s : SparseHdr) : SparseHdr :=
  if hashGrow s.nodeCount s.hashtab.length
  then resizeHashTab s (s.hashtab.length * 2) else s

/-- Take a slot from the free list if one is available, else grow the pool
by one (zeroed) node. -/
def allocNode (s : SparseHdr) : SparseHdr × Nat :=
  if s.freeList ≠ 0 then
    ({ s with freeList := (snode s.pool s.freeList).next }, s.freeList)
  else
    ({ s with pool := s.pool ++ [default] }, s.pool.length)

/-- Fill the fresh node (stored hash, coordinates, zero value) and link it
at the head of its bucket. -/
def linkNode (p : SparseHdr × Nat) (k : List Nat) (hv : Nat) : SparseHdr × Nat :=
  ({ p.1 with
      pool := p.1.pool.set p.2
        ⟨hv, p.1.hashtab.getD (hv % p.1.hashtab.length) 0, k, 0⟩,
      hashtab := p.1.hashtab.set (hv % p.1.hashtab.length) p.2 }, p.2)

def newNode (s : SparseHdr) (k : List Nat) (hv : Nat) : SparseHdr × Nat :=
  linkNode (allocNode (growStep { s with nodeCount := s.nodeCount + 1 })) k hv

/-- Modelled from the spec: `SparseMat::ptr` with `createMissing = true` —
return the existing slot or create a zero-initialized one. -/
def sptrCreate (s : SparseHdr) (k : List Nat) : SparseHdr × Nat :=
  match sfind s k with
  | some i => (s, i)
  | none => newNode s k (schash k)

/-- Modelled from the spec: `SparseMat::ref<T>(k) = v` — force the element
into existence, then store `v` in its value slot. -/
def srefSet (s : SparseHdr) (k : List Nat) (v : Int) : SparseHdr :=
  let r := sptrCreate s k
  { r.1 with pool := r.1.pool.set r.2 { snode r.1.pool r.2 with value := v } }

/-- Modelled from the spec: `SparseMat::ref<T>(k)` — the forcing read;
never a null sentinel. -/
def sref (s : SparseHdr) (k : List Nat) : SparseHdr × Int :=
  let r := sptrCreate s k
  (r.1, (snode r.1.pool r.2).value)

/-- Modelled from the spec: `SparseMat::value<T>(k)` — zero sentinel when
the element is absent. -/
def svalue (s : SparseHdr) (k : List Nat) : Int :=
  match sfind s k with
  | some i => (snode s.pool i).value
  | none => 0

/-- Modelled from the spec: `SparseMat::removeNode(hidx, nidx, previdx)`
(declared mat.hpp line 1335): unlink the node (patch the predecessor's
`next`, or the bucket head when it was first), push the slot onto the free
list, decrement `nodeCount`. -/
def removeNode (s : SparseHdr) (hidx nidx previdx : Nat) : SparseHdr :=
  let nxt := (snode s.pool nidx).next
  let s1 := if previdx = 0
            then { s with hashtab := s.hashtab.set hidx nxt }
            else { s with pool := s.pool.set previdx
                            { snode s.pool previdx with next := nxt } }
  { s1 with pool := s1.pool.set nidx { snode s1.pool nidx with next := s1.freeList },
            freeList := nidx, nodeCount := s1.nodeCount - 1 }

/-- Modelled from the spec: `SparseMat::erase(idx)` — locate the node and
its predecessor in its bucket chain and remove it; absence is not an
error (no-op). -/
def serase (s : SparseHdr) (k : List Nat) : SparseHdr :=
  if s.hashtab.length = 0 then s
  else
    let hv := schash k
    let b := hv % s.hashtab.length
    match findPred s.pool hv k s.pool.length 0 (s.hashtab.getD b 0) with
    | none => s
    | some pr => removeNode s b pr.2 pr.1

/-- Modelled from the spec: `SparseMat::create(dims, sizes, type)` —
allocate a small initial hash table and an empty node pool; the
dimensionality is bounded by `MAX_DIM` (the `Hdr::size` and `Node::idx`
arrays have `MAX_DIM` slots). -/
def screate (dims : Nat) (sizes : List Nat) : Option SparseHdr :=
  if 1 ≤ dims ∧ dims ≤ MAX_DIM ∧ sizes.length = dims then
    some { dims := dims, sizes := sizes, pool := [default],
           hashtab := List.replicate 8 0, freeList := 0, nodeCount := 0 }
  else none

/-- `SparseMat::nzcount()` (mat.hpp line 1201). -/
def nzcount (s : SparseHdr) : Nat := s.nodeCount

/-! ### Observable contents -/

/-- The chain of bucket `b`. -/
def sbucket (s : SparseHdr) (b : Nat) : List Nat :=
  chainNodes s.pool s.pool.length (s.hashtab.getD b 0)

/-- All slots reachable from some bucket head (the live nodes). -/
def sliveSlots (s : SparseHdr) : List Nat :=
  ((List.range s.hashtab.length).map (sbucket s)).flatten

/-- The free-list slots. -/
def sfreeChain (s : SparseHdr) : List Nat :=
  chainNodes s.pool s.pool.length s.freeList

/-- Coordinate tuples of all live nodes. -/
def skeys (s : SparseHdr) : List (List Nat) :=
  (sliveSlots s).map fun i => (snode s.pool i).idx

/-- (coordinate tuple, value) pairs of all live nodes. -/
def smap (s : SparseHdr) : List (List Nat × Int) :=
  (sliveSlots s).map fun i => ((snode s.pool i).idx, (snode s.pool i).value)

/-! ### Well-formedness -/

/-- `spine pool h l`: starting from head `h` and following `next` fields,
the chain visits exactly the slots `l` and ends at the nil sentinel 0. -/
def spine (pool : List SNode) : Nat → List Nat → Prop
  | h, [] => h = 0
  | h, i :: t => h = i ∧ i ≠ 0 ∧ i < pool.length ∧ spine pool (snode pool i).next t

instance spineDec (pool : List SNode) (h : Nat) (l : List Nat) : Decidable (spine pool h l) :=
  match l with
  | [] => inferInstanceAs (Decidable (h = 0))
  | i :: t =>
      haveI := spineDec pool (snode pool i).next t
      inferInstanceAs (Decidable (h = i ∧ i ≠ 0 ∧ i < pool.length ∧
        spine pool (snode pool i).next t))

/-- Structural invariant of the hash table: `bks` are the bucket chains
and `fr` the free-list chain.  Chains are genuine nil-terminated spines,
live and free slots are pairwise distinct, every live node sits in the
bucket selected by its stored hash, stored hashes agree with the hash
function, tuples have the header's dimensionality, and live keys are
pairwise distinct. -/
def StructInv (s : SparseHdr) (bks : List (List Nat)) (fr : List Nat) : Prop :=
  bks.length = s.hashtab.length ∧
  (∀ b < s.hashtab.length, spine s.pool (s.hashtab.getD b 0) (bks.getD b [])) ∧
  spine s.pool s.freeList fr ∧
  (bks.flatten ++ fr).Nodup ∧
  (∀ b < s.hashtab.length, ∀ i ∈ bks.getD b [],
      (snode s.pool i).hashval % s.hashtab.length = b) ∧
  (∀ i ∈ bks.flatten, (snode s.pool i).hashval = schash (snode s.pool i).idx ∧
      (snode s.pool i).idx.length = s.dims) ∧
  (bks.flatten.map fun i => (snode s.pool i).idx).Nodup

/-- Full invariant of a sparse matrix state. -/
def SInvP (s : SparseHdr) : Prop :=
  1 ≤ s.pool.length ∧ 8 ≤ s.hashtab.length ∧ (∃ k, s.hashtab.length = 2 ^ k) ∧
  s.nodeCount * 3 ≤ 2 * s.hashtab.length ∧
  1 ≤ s.dims ∧ s.dims ≤ MAX_DIM ∧ s.sizes.length = s.dims ∧
  ∃ bks fr, StructInv s bks fr ∧ s.nodeCount = bks.flatten.length

/-! ### Operation traces -/

/-- The mutating sparse operations of the spec scenario: `ref<T>(k) = v`
and `erase(k)`. -/
inductive SOp where
  | put (k : List Nat) (v : Int)
  | del (k : List Nat)
deriving DecidableEq

/-- The coordinate tuple an operation touches. -/
def SOp.key : SOp → List Nat
  | .put k _ => k
  | .del k => k

/-- Run one operation. -/
def applySOp (s : SparseHdr) : SOp → SparseHdr
  | .put k v => srefSet s k v
  | .del k => serase s k

/-- Run a trace of operations. -/
def runOps (s : SparseHdr) (ops : List SOp) : SparseHdr := ops.foldl applySOp s

/-- The bookkeeping of the claim: the set of distinct keys inserted and
not erased since, as a duplicate-free list. -/
def keysModel (ks : List (List Nat)) : List SOp → List (List Nat)
  | [] => ks
  | .put k _ :: rest => keysModel (if k ∈ ks then ks else k :: ks) rest
  | .del k :: rest => keysModel (ks.erase k) rest

/-- All keys of a trace have the dimensionality of the header. -/
def opsWF (d : Nat) (ops : List SOp) : Prop := ∀ op ∈ ops, (SOp.key op).length = d

/-! ### Concrete sample states (test fixtures for the witnesses) -/

/-- A freshly created 1-dimensional sparse header (the result of
`screate 1 [10]`). -/
def sampleSparse0 : SparseHdr :=
  { dims := 1, sizes := [10], pool := [default],
    hashtab := List.replicate 8 0, freeList := 0, nodeCount := 0 }

/-- A 1-dimensional sparse header holding five elements with keys
`[0], [1], [2], [3], [4]` in pool slots 1-5, at the load-factor limit of
an 8-bucket table (one more insertion triggers a rehash). -/
def sampleSparse5 : SparseHdr :=
  { dims := 1, sizes := [10],
    pool := [default,
      ⟨0, 0, [0], 10⟩, ⟨1, 0, [1], 20⟩, ⟨2, 0, [2], 30⟩,
      ⟨3, 0, [3], 40⟩, ⟨4, 0, [4], 50⟩],
    hashtab := [1, 2, 3, 4, 5, 0, 0, 0], freeList := 0, nodeCount := 5 }

/-- A small operation trace: two insertions and one erase. -/
def sampleOps : List SOp := [SOp.put [3] 7, SOp.put [4] 8, SOp.del [3]]

/-! # Theorems -/

/-! ## Dense views (C1) -/

theorem readAt_writeAt_hit (w : World) (V P : Mat) (i j pi pj : Nat) (v : Int)
    (hs : V.storageId = P.storageId) (ha : V.addr i j = P.addr pi pj) :
    Mat.readAt (Mat.writeAt w V i j v) P pi pj = v := by
  simp [Mat.readAt, Mat.writeAt, World.write, hs, ha]

theorem applySlice_storage (P : Mat) (op : SliceOp) :
    (applySlice P op).storageId = P.storageId := by
  cases op <;>
    simp [applySlice, Mat.rowView, Mat.colView, Mat.rowRangeView, Mat.colRangeView,
      Mat.diagView, Mat.regionView]

theorem applySlice_dataOfs (P : Mat) (op : SliceOp) :
    (applySlice P op).dataOfs
      = P.dataOfs + (sliceOfs op).1 * P.step + (sliceOfs op).2 * P.elemSize := by
  cases op <;>
    simp [applySlice, Mat.rowView, Mat.colView, Mat.rowRangeView, Mat.colRangeView,
      Mat.diagView, Mat.regionView, sliceOfs, Mat.elemSize] <;>
    ring

theorem applySlice_addr (P : Mat) (op : SliceOp) (i j : Nat) :
    (applySlice P op).addr i j
      = P.addr (coordMap op (i, j)).1 (coordMap op (i, j)).2 := by
  cases op <;>
    simp [applySlice, Mat.rowView, Mat.colView, Mat.rowRangeView, Mat.colRangeView,
      Mat.diagView, Mat.regionView, Mat.addr, Mat.elemSize, coordMap, sliceOfs] <;>
    ring

/-- Claim C1: for every dense array `P`, every view `V = applySlice P op`
derived by a slicing operation, and every in-range coordinate `(i, j)` of
`V`: writing through `V` and reading through `P` at the corresponding
(offset-shifted) coordinate yields the written value; `V`'s data pointer
is `P`'s advanced by the per-dimension offsets times the byte strides, and
`V` aliases `P`'s storage block (no copy). -/
theorem claim_C1_view_aliasing (w : World) (P : Mat) (op : SliceOp) (i j : Nat) (v : Int)
    (hop : sliceOK P op)
    (hi : i < (applySlice P op).rows) (hj : j < (applySlice P op).cols) :
    (applySlice P op).storageId = P.storageId ∧
    (applySlice P op).dataOfs
      = P.dataOfs + (sliceOfs op).1 * P.step + (sliceOfs op).2 * P.elemSize ∧
    Mat.readAt (Mat.writeAt w (applySlice P op) i j v) P
      (coordMap op (i, j)).1 (coordMap op (i, j)).2 = v :=
  ⟨applySlice_storage P op, applySlice_dataOfs P op,
   readAt_writeAt_hit w _ P i j _ _ v (applySlice_storage P op) (applySlice_addr P op i j)⟩

theorem claim_C1_witness :
    sliceOK (⟨4, 4, 4, 1, 1, 0, 7, false, true⟩ : Mat) (SliceOp.row 1) ∧
    (0 : Nat) < (applySlice (⟨4, 4, 4, 1, 1, 0, 7, false, true⟩ : Mat) (SliceOp.row 1)).rows ∧
    (1 : Nat) < (applySlice (⟨4, 4, 4, 1, 1, 0, 7, false, true⟩ : Mat) (SliceOp.row 1)).cols ∧
    Mat.readAt
      (Mat.writeAt (fun _ _ => 0)
        (applySlice (⟨4, 4, 4, 1, 1, 0, 7, false, true⟩ : Mat) (SliceOp.row 1)) 0 1 5)
      (⟨4, 4, 4, 1, 1, 0, 7, false, true⟩ : Mat)
      (coordMap (SliceOp.row 1) (0, 1)).1 (coordMap (SliceOp.row 1) (0, 1)).2 = 5 :=
  ⟨by decide, by decide, by decide,
   (claim_C1_view_aliasing (fun _ _ => 0) ⟨4, 4, 4, 1, 1, 0, 7, false, true⟩
      (SliceOp.row 1) 0 1 5 (by decide) (by decide) (by decide)).2.2⟩

/-! ## Reference counting (C2) -/

theorem rcStep_inv (a : Nat) (st : RcState) (op : RcOp)
    (h1 : st.stor.rc = st.liveHeaders) (h2 : st.stor.allocId = a)
    (h3 : st.stor.freedBy = if st.liveHeaders = 0 then some a else none) :
    (rcStep st op).stor.rc = (rcStep st op).liveHeaders ∧
    (rcStep st op).stor.allocId = a ∧
    (rcStep st op).stor.freedBy
      = if (rcStep st op).liveHeaders = 0 then some a else none := by
  by_cases hz : st.liveHeaders = 0
  · cases op <;> simp only [rcStep, if_pos hz] <;>
      exact ⟨h1, h2, by rw [h3, if_pos hz]⟩
  · cases op
    · refine ⟨?_, ?_, ?_⟩ <;> simp only [rcStep, if_neg hz]
      · omega
      · exact h2
      · rw [h3, if_neg hz, if_neg (by omega)]
    · refine ⟨?_, ?_, ?_⟩ <;> simp only [rcStep, if_neg hz]
      · omega
      · exact h2
      · by_cases hlast : st.liveHeaders - 1 = 0
        · rw [if_pos (by omega), if_pos hlast, h2]
        · rw [if_neg (by omega), if_neg hlast, h3, if_neg hz]

theorem rcFold_inv (a : Nat) (ops : List RcOp) :
    ∀ st : RcState, st.stor.rc = st.liveHeaders → st.stor.allocId = a →
      st.stor.freedBy = (if st.liveHeaders = 0 then some a else none) →
      ((ops.foldl rcStep st).stor.rc = (ops.foldl rcStep st).liveHeaders ∧
       (ops.foldl rcStep st).stor.allocId = a ∧
       (ops.foldl rcStep st).stor.freedBy
         = if (ops.foldl rcStep st).liveHeaders = 0 then some a else none) := by
  induction ops with
  | nil => intro st h1 h2 h3; exact ⟨h1, h2, h3⟩
  | cons op rest ih =>
      intro st h1 h2 h3
      have h := rcStep_inv a st op h1 h2 h3
      simpa using ih (rcStep st op) h.1 h.2.1 h.2.2

/-- Claim C2: along every operation sequence on one shared storage block
(creation, alias copy, release) the reference count equals the number of
live aliasing headers; a copy increments and a release decrements it; the
buffer is freed through the originating allocator exactly when the count
reaches zero — in particular the storage is still alive whenever any
header (for instance a view outliving the released parent) is. -/
theorem claim_C2_refcount (a : Nat) (ops : List RcOp) :
    (rcRun a ops).stor.rc = (rcRun a ops).liveHeaders ∧
    ((rcRun a ops).stor.freedBy = none ↔ (rcRun a ops).liveHeaders ≠ 0) ∧
    ((rcRun a ops).liveHeaders = 0 → (rcRun a ops).stor.freedBy = some a) ∧
    (∀ st : RcState, st.liveHeaders ≠ 0 →
      (rcStep st RcOp.aliasCopy).stor.rc = st.stor.rc + 1 ∧
      (rcStep st RcOp.release).stor.rc = st.stor.rc - 1) := by
  have h := rcFold_inv a ops (rcInit a) rfl rfl (by simp [rcInit])
  refine ⟨h.1, ?_, ?_, ?_⟩
  · rw [rcRun] at *
    rw [h.2.2]
    constructor
    · intro hnone hz
      rw [if_pos hz] at hnone
      exact Option.noConfusion hnone
    · intro hnz
      rw [if_neg hnz]
  · intro hz
    rw [rcRun] at *
    rw [h.2.2, if_pos hz]
  · intro st hnz
    constructor <;> simp [rcStep, hnz]

theorem claim_C2_witness :
    (rcRun 0 [RcOp.aliasCopy, RcOp.release]).stor.rc
      = (rcRun 0 [RcOp.aliasCopy, RcOp.release]).liveHeaders ∧
    ((⟨⟨2, 0, none⟩, 2⟩ : RcState).liveHeaders ≠ 0 ∧
      (rcStep (⟨⟨2, 0, none⟩, 2⟩ : RcState) RcOp.aliasCopy).stor.rc = 3) :=
  ⟨(claim_C2_refcount 0 [RcOp.aliasCopy, RcOp.release]).1,
   by decide,
   by
    have h := (claim_C2_refcount 0 []).2.2.2 (⟨⟨2, 0, none⟩, 2⟩ : RcState) (by decide)
    simpa using h.1⟩

/-! ## `Mat::create` (C5) -/

/-- Claim C5: `create` is a no-op (header and storage unchanged) when the
requested extents and type match the current ones, reallocates to the
requested shape otherwise, and is all-or-nothing: on allocation failure
the previous valid header is preserved. -/
theorem claim_C5_create (m : DenseShape) (sizes : List Nat) (t : Nat) (alloc : Option Nat) :
    ((m.sizes = sizes ∧ m.mtype = t) → matCreate m sizes t alloc = (true, m)) ∧
    ((matCreate m sizes t alloc).1 = false → (matCreate m sizes t alloc).2 = m) ∧
    (¬(m.sizes = sizes ∧ m.mtype = t) → alloc = none →
        matCreate m sizes t alloc = (false, m)) ∧
    (∀ sid, ¬(m.sizes = sizes ∧ m.mtype = t) → alloc = some sid →
        matCreate m sizes t alloc = (true, ⟨sizes, t, sid⟩)) := by
  refine ⟨?_, ?_, ?_, ?_⟩
  · intro h; simp [matCreate, h]
  · intro h
    by_cases hm : m.sizes = sizes ∧ m.mtype = t
    · simp [matCreate, hm]
    · cases halloc : alloc with
      | none => simp [matCreate, hm, halloc]
      | some sid => simp [matCreate, hm, halloc] at h
  · intro hm halloc; simp [matCreate, hm, halloc]
  · intro sid hm halloc; simp [matCreate, hm, halloc]

theorem claim_C5_witness :
    ((⟨[2], 0, 5⟩ : DenseShape).sizes = [2] ∧ (⟨[2], 0, 5⟩ : DenseShape).mtype = 0) ∧
    matCreate ⟨[2], 0, 5⟩ [2] 0 none = (true, ⟨[2], 0, 5⟩) :=
  ⟨⟨rfl, rfl⟩, (claim_C5_create ⟨[2], 0, 5⟩ [2] 0 none).1 ⟨rfl, rfl⟩⟩

/-! ## `Mat::clone` (C6) -/

/-- Claim C6: `clone` produces a deep copy: its own fresh storage block,
contents identical to the source at the moment of cloning, and afterwards
mutating any element through the clone leaves every byte of the original's
storage unchanged, and vice versa. -/
theorem claim_C6_clone (w : World) (m : Mat) (fresh : Nat)
    (hfresh : fresh ≠ m.storageId) (hes : 0 < m.elemSize) :
    (matClone w m fresh).1.storageId = fresh ∧
    (matClone w m fresh).1.storageId ≠ m.storageId ∧
    (∀ i j, i < m.rows → j < m.cols →
      Mat.readAt (matClone w m fresh).2 (matClone w m fresh).1 i j = Mat.readAt w m i j) ∧
    (∀ i j v a,
      Mat.writeAt (matClone w m fresh).2 (matClone w m fresh).1 i j v m.storageId a
        = (matClone w m fresh).2 m.storageId a) ∧
    (∀ i j v a,
      Mat.writeAt (matClone w m fresh).2 m i j v fresh a
        = (matClone w m fresh).2 fresh a) := by
  refine ⟨rfl, hfresh, ?_, ?_, ?_⟩
  · intro i j hi hj
    have hes1 : 0 < m.channels * m.elemSize1 := hes
    have hstep : 0 < m.cols * (m.channels * m.elemSize1) :=
      Nat.mul_pos (Nat.lt_of_le_of_lt (Nat.zero_le j) hj) hes1
    have hjlt : j * (m.channels * m.elemSize1) < m.cols * (m.channels * m.elemSize1) :=
      mul_lt_mul_of_pos_right hj hes1
    simp only [matClone, Mat.readAt, Mat.addr, Mat.elemSize]
    rw [if_pos trivial, if_pos ⟨hes1, hstep⟩]
    have haddr :
        (0 + m.cols * (m.channels * m.elemSize1) * i + j * (m.channels * m.elemSize1))
          = j * (m.channels * m.elemSize1)
            + (m.cols * (m.channels * m.elemSize1)) * i := by
      ring
    rw [haddr, Nat.add_mul_div_left _ _ hstep, Nat.div_eq_of_lt hjlt,
      Nat.add_mul_mod_self_left, Nat.mod_eq_of_lt hjlt,
      Nat.mul_div_cancel j hes1]
    simp
  · intro i j v a
    simp only [matClone, Mat.writeAt, World.write]
    rw [if_neg (Ne.symm hfresh)]
  · intro i j v a
    simp only [matClone, Mat.writeAt, World.write]
    rw [if_neg hfresh]

theorem claim_C6_witness :
    (9 : Nat) ≠ (⟨2, 2, 2, 1, 1, 0, 3, false, true⟩ : Mat).storageId ∧
    (0 : Nat) < (⟨2, 2, 2, 1, 1, 0, 3, false, true⟩ : Mat).elemSize ∧
    Mat.readAt (matClone (fun s a => (s : Int) + a) ⟨2, 2, 2, 1, 1, 0, 3, false, true⟩ 9).2
        (matClone (fun s a => (s : Int) + a) ⟨2, 2, 2, 1, 1, 0, 3, false, true⟩ 9).1 1 1
      = Mat.readAt (fun s a => (s : Int) + a) ⟨2, 2, 2, 1, 1, 0, 3, false, true⟩ 1 1 :=
  ⟨by decide, by decide,
   (claim_C6_clone (fun s a => (s : Int) + a) ⟨2, 2, 2, 1, 1, 0, 3, false, true⟩ 9
      (by decide) (by decide)).2.2.1 1 1 (by decide) (by decide)⟩

/-! ## `Mat::reshape` (C7) -/

theorem reshape_bytes_iff (m : Mat) (cn newRows : Nat) (hes : 0 < m.elemSize1) :
    (∃ nc, newRows * nc * (cn * m.elemSize1)
        = m.rows * m.cols * (m.channels * m.elemSize1))
      ↔ (newRows * cn) ∣ (m.rows * m.cols * m.channels) := by
  constructor
  · rintro ⟨nc, hnc⟩
    refine ⟨nc, ?_⟩
    have h2 : newRows * nc * cn * m.elemSize1
        = m.rows * m.cols * m.channels * m.elemSize1 := by
      calc newRows * nc * cn * m.elemSize1
          = newRows * nc * (cn * m.elemSize1) := by ring
        _ = m.rows * m.cols * (m.channels * m.elemSize1) := hnc
        _ = m.rows * m.cols * m.channels * m.elemSize1 := by ring
    have h3 : newRows * nc * cn = m.rows * m.cols * m.channels :=
      Nat.eq_of_mul_eq_mul_right hes h2
    rw [← h3]; ring
  · rintro ⟨c, hc⟩
    refine ⟨c, ?_⟩
    calc newRows * c * (cn * m.elemSize1) = newRows * cn * c * m.elemSize1 := by ring
      _ = m.rows * m.cols * m.channels * m.elemSize1 := by rw [← hc]
      _ = m.rows * m.cols * (m.channels * m.elemSize1) := by ring

/-- Claim C7: `reshape(cn, newRows)` succeeds exactly when the requested
total byte length equals the current one and the source is continuous
unless the reshape keeps the row count; it fails with a shape-mismatch
error when the totals differ; on success it reinterprets the same buffer
without copying, preserving the total byte length. -/
theorem claim_C7_reshape (m : Mat) (cn newRows : Nat)
    (hcn : 0 < cn) (hr : 0 < newRows) (hes : 0 < m.elemSize1) :
    ((∃ r, matReshape m cn newRows = .ok r) ↔
      ((∃ nc, newRows * nc * (cn * m.elemSize1)
          = m.rows * m.cols * (m.channels * m.elemSize1)) ∧
       (m.continuous = true ∨ newRows = m.rows))) ∧
    ((¬ ∃ nc, newRows * nc * (cn * m.elemSize1)
        = m.rows * m.cols * (m.channels * m.elemSize1)) →
      matReshape m cn newRows = .error .shapeMismatch) ∧
    (∀ r, matReshape m cn newRows = .ok r →
      r.rows * r.cols * r.elemSize = m.rows * m.cols * m.elemSize ∧
      r.storageId = m.storageId ∧ r.dataOfs = m.dataOfs) := by
  have hpos : 0 < newRows * cn := Nat.mul_pos hr hcn
  have hbytes := reshape_bytes_iff m cn newRows hes
  by_cases hdvd : (newRows * cn) ∣ (m.rows * m.cols * m.channels)
  · have hmod : m.rows * m.cols * m.channels % (newRows * cn) = 0 :=
      Nat.dvd_iff_mod_eq_zero.mp hdvd
    have hcond : ¬(newRows * cn = 0 ∨ ¬m.rows * m.cols * m.channels % (newRows * cn) = 0) := by
      push_neg
      exact ⟨by omega, hmod⟩
    by_cases hcont : m.continuous = true ∨ newRows = m.rows
    · have hok : matReshape m cn newRows
          = .ok { m with rows := newRows,
                         cols := m.rows * m.cols * m.channels / (newRows * cn),
                         channels := cn,
                         step := if m.continuous
                                 then m.rows * m.cols * m.channels / (newRows * cn) * cn
                                        * m.elemSize1
                                 else m.step } := by
        simp only [matReshape]
        rw [if_neg hcond, if_neg (not_not_intro hcont)]
      refine ⟨?_, ?_, ?_⟩
      · exact ⟨fun _ => ⟨hbytes.mpr hdvd, hcont⟩, fun _ => ⟨_, hok⟩⟩
      · intro hne; exact absurd (hbytes.mpr hdvd) hne
      · intro r hr2
        rw [hok] at hr2
        cases hr2
        refine ⟨?_, rfl, rfl⟩
        simp only [Mat.elemSize]
        have hq := Nat.div_mul_cancel hdvd
        calc newRows * (m.rows * m.cols * m.channels / (newRows * cn)) * (cn * m.elemSize1)
            = (m.rows * m.cols * m.channels / (newRows * cn)) * (newRows * cn)
                * m.elemSize1 := by ring
          _ = m.rows * m.cols * m.channels * m.elemSize1 := by rw [hq]
          _ = m.rows * m.cols * (m.channels * m.elemSize1) := by ring
    · have herr2 : matReshape m cn newRows = .error .notContinuous := by
        simp only [matReshape]
        rw [if_neg hcond, if_pos hcont]
      refine ⟨?_, ?_, ?_⟩
      · constructor
        · rintro ⟨r, hr2⟩
          rw [herr2] at hr2
          exact Except.noConfusion hr2
        · rintro ⟨_, hc⟩; exact absurd hc hcont
      · intro hne; exact absurd (hbytes.mpr hdvd) hne
      · intro r hr2
        rw [herr2] at hr2
        exact Except.noConfusion hr2
  · have hmod : ¬ m.rows * m.cols * m.channels % (newRows * cn) = 0 := by
      intro h0
      exact hdvd (Nat.dvd_of_mod_eq_zero h0)
    have herr : matReshape m cn newRows = .error .shapeMismatch := by
      simp only [matReshape]
      rw [if_pos (Or.inr hmod)]
    refine ⟨?_, fun _ => herr, ?_⟩
    · constructor
      · rintro ⟨r, hr2⟩
        rw [herr] at hr2
        exact Except.noConfusion hr2
      · rintro ⟨hb, _⟩
        exact absurd (hbytes.mp hb) hdvd
    · intro r hr2
      rw [herr] at hr2
      exact Except.noConfusion hr2

theorem claim_C7_witness :
    matReshape (⟨2, 3, 3, 1, 1, 0, 4, false, true⟩ : Mat) 1 3
      = .ok (⟨3, 2, 2, 1, 1, 0, 4, false, true⟩ : Mat) ∧
    (⟨3, 2, 2, 1, 1, 0, 4, false, true⟩ : Mat).rows
        * (⟨3, 2, 2, 1, 1, 0, 4, false, true⟩ : Mat).cols
        * (⟨3, 2, 2, 1, 1, 0, 4, false, true⟩ : Mat).elemSize
      = (⟨2, 3, 3, 1, 1, 0, 4, false, true⟩ : Mat).rows
        * (⟨2, 3, 3, 1, 1, 0, 4, false, true⟩ : Mat).cols
        * (⟨2, 3, 3, 1, 1, 0, 4, false, true⟩ : Mat).elemSize :=
  ⟨rfl,
   ((claim_C7_reshape ⟨2, 3, 3, 1, 1, 0, 4, false, true⟩ 1 3 (by decide) (by decide)
      (by decide)).2.2 ⟨3, 2, 2, 1, 1, 0, 4, false, true⟩ rfl).1⟩

/-! ## Type-tag bit layout (C9) -/

/-- Claim C9: the packed tag layout — depth in bits 0..2, channel count
minus one in bits 3..11, submatrix flag at bit 14, continuous flag at bit
15, the proxy kind discriminator from bit 16 up (`KIND_SHIFT = 16`), and
the fixed-size / fixed-type constraint flags at bits 30 and 31. -/
theorem claim_C9_bit_layout :
    KIND_SHIFT = 16 ∧ FIXED_SIZE = 2 ^ 30 ∧ FIXED_TYPE = 2 ^ 31 ∧
    SUBMATRIX_FLAG = 2 ^ 14 ∧ CONTINUOUS_FLAG = 2 ^ 15 ∧
    DEPTH_MASK = 2 ^ 3 - 1 ∧ TYPE_MASK = 2 ^ 12 - 1 ∧
    (∀ k, kindCode k = k * 2 ^ 16) ∧
    (∀ d c, d < 8 → 1 ≤ c → c ≤ 512 →
      typeDepth (makeType d c) = d ∧ typeChannels (makeType d c) = c) := by
  refine ⟨rfl, by decide, by decide, by decide, by decide, by decide, by decide, ?_, ?_⟩
  · intro k
    simp [kindCode, Nat.shiftLeft_eq, KIND_SHIFT]
  · intro d c hd hc1 hc2
    have hmt : makeType d c = d + (c - 1) * 8 := by
      have h1 : d &&& DEPTH_MASK = d % 8 := by
        have := Nat.and_pow_two_sub_one_eq_mod d 3
        simpa [DEPTH_MASK] using this
      simp [makeType, h1, Nat.shiftLeft_eq, CN_SHIFT, Nat.mod_eq_of_lt hd]
    have hlt : d + (c - 1) * 8 < 4096 := by omega
    constructor
    · have h1 : (d + (c - 1) * 8) &&& DEPTH_MASK = (d + (c - 1) * 8) % 8 := by
        have := Nat.and_pow_two_sub_one_eq_mod (d + (c - 1) * 8) 3
        simpa [DEPTH_MASK] using this
      rw [typeDepth, hmt, h1]
      omega
    · have h1 : (d + (c - 1) * 8) &&& TYPE_MASK = (d + (c - 1) * 8) % 4096 := by
        have := Nat.and_pow_two_sub_one_eq_mod (d + (c - 1) * 8) 12
        simpa [TYPE_MASK] using this
      rw [typeChannels, hmt, h1, Nat.shiftRight_eq_div_pow]
      have hcn8 : (2 : Nat) ^ CN_SHIFT = 8 := by decide
      rw [hcn8]
      omega

theorem claim_C9_witness :
    (2 : Nat) < 8 ∧ (1 : Nat) ≤ 3 ∧ (3 : Nat) ≤ 512 ∧
    typeDepth (makeType 2 3) = 2 ∧ typeChannels (makeType 2 3) = 3 :=
  ⟨by decide, by decide, by decide,
   (claim_C9_bit_layout.2.2.2.2.2.2.2.2 2 3 (by decide) (by decide) (by decide)).1,
   (claim_C9_bit_layout.2.2.2.2.2.2.2.2 2 3 (by decide) (by decide) (by decide)).2⟩

/-! ## Sparse helper lemmas: pool access -/

theorem snode_set_self (pool : List SNode) (i : Nat) (x : SNode) (hi : i < pool.length) :
    snode (pool.set i x) i = x := by
  simp [snode, List.getD_eq_getElem?_getD, List.getElem?_set_self, hi]

theorem snode_set_ne (pool : List SNode) (i j : Nat) (x : SNode) (h : i ≠ j) :
    snode (pool.set i x) j = snode pool j := by
  simp [snode, List.getD_eq_getElem?_getD, List.getElem?_set_ne h]

theorem snode_append_lt (pool l2 : List SNode) (i : Nat) (hi : i < pool.length) :
    snode (pool ++ l2) i = snode pool i := by
  simp [snode, List.getD_eq_getElem?_getD, List.getElem?_append, hi]

theorem snode_append_last (pool : List SNode) (x : SNode) :
    snode (pool ++ [x]) pool.length = x := by
  simp [snode, List.getD_eq_getElem?_getD]

/-! ## Sparse helper lemmas: spines -/

theorem spine_mem (pool : List SNode) {h : Nat} {l : List Nat} (hs : spine pool h l) :
    ∀ i ∈ l, i ≠ 0 ∧ i < pool.length := by
  induction l generalizing h with
  | nil => intro i hi; cases hi
  | cons a t ih =>
      obtain ⟨rfl, ha, hlt, hrest⟩ := hs
      intro i hi
      rcases List.mem_cons.mp hi with rfl | hi
      · exact ⟨ha, hlt⟩
      · exact ih hrest i hi

theorem spine_congr_next {pool pool2 : List SNode} {h : Nat} {l : List Nat}
    (hlen : pool2.length = pool.length)
    (hagree : ∀ i ∈ l, (snode pool2 i).next = (snode pool i).next)
    (hs : spine pool h l) : spine pool2 h l := by
  induction l generalizing h with
  | nil => exact hs
  | cons a t ih =>
      obtain ⟨hha, ha, hlt, hrest⟩ := hs
      refine ⟨hha, ha, by omega, ?_⟩
      rw [hagree a (List.mem_cons_self a t)]
      exact ih (fun i hi => hagree i (List.mem_cons_of_mem a hi)) hrest

theorem spine_set_outside {pool : List SNode} {h : Nat} {l : List Nat}
    (hs : spine pool h l) (j : Nat) (x : SNode) (hj : j ∉ l) :
    spine (pool.set j x) h l := by
  refine spine_congr_next (by simp) ?_ hs
  intro i hi
  rw [snode_set_ne pool j i x (fun hji => hj (hji ▸ hi))]

theorem spine_append {pool : List SNode} {h : Nat} {l : List Nat}
    (hs : spine pool h l) (l2 : List SNode) : spine (pool ++ l2) h l := by
  induction l generalizing h with
  | nil => exact hs
  | cons a t ih =>
      obtain ⟨hha, ha, hlt, hrest⟩ := hs
      refine ⟨hha, ha, by simp; omega, ?_⟩
      rw [snode_append_lt pool l2 a hlt]
      exact ih hrest

theorem spine_chainNodes (pool : List SNode) {h : Nat} {l : List Nat} (hs : spine pool h l)
    {fuel : Nat} (hf : l.length ≤ fuel) : chainNodes pool fuel h = l := by
  induction l generalizing h fuel with
  | nil =>
      have hs0 : h = 0 := hs
      cases fuel with
      | zero => rfl
      | succ f => simp [chainNodes, hs0]
  | cons a t ih =>
      obtain ⟨hha, ha, hlt, hrest⟩ := hs
      cases fuel with
      | zero => simp at hf
      | succ f =>
          rw [hha]
          simp only [chainNodes, if_neg ha, List.cons.injEq, true_and]
          exact ih hrest (by simpa using hf)

/-! ## Sparse helper lemmas: chain search -/

theorem findInChain_none_iff (pool : List SNode) (hv : Nat) (k : List Nat)
    {h : Nat} {l : List Nat} (hs : spine pool h l) {fuel : Nat} (hf : l.length ≤ fuel) :
    (findInChain pool hv k fuel h = none ↔
      ∀ i ∈ l, ¬((snode pool i).hashval = hv ∧ (snode pool i).idx = k)) := by
  induction l generalizing h fuel with
  | nil =>
      have hs0 : h = 0 := hs
      cases fuel with
      | zero => simp [findInChain]
      | succ f => simp [findInChain, hs0]
  | cons a t ih =>
      obtain ⟨hha, ha, hlt, hrest⟩ := hs
      cases fuel with
      | zero => simp at hf
      | succ f =>
          rw [hha]
          by_cases hm : (snode pool a).hashval = hv ∧ (snode pool a).idx = k
          · simp [findInChain, ha, hm]
          · simp only [findInChain, if_neg ha, if_neg hm]
            rw [ih hrest (by simpa using hf)]
            constructor
            · intro hall i hi
              rcases List.mem_cons.mp hi with rfl | hi
              · exact hm
              · exact hall i hi
            · intro hall i hi
              exact hall i (List.mem_cons_of_mem a hi)

theorem findInChain_some (pool : List SNode) (hv : Nat) (k : List Nat)
    {h : Nat} {l : List Nat} (hs : spine pool h l) {fuel : Nat} (hf : l.length ≤ fuel)
    {j : Nat} (hfind : findInChain pool hv k fuel h = some j) :
    j ∈ l ∧ (snode pool j).hashval = hv ∧ (snode pool j).idx = k := by
  induction l generalizing h fuel with
  | nil =>
      have hs0 : h = 0 := hs
      cases fuel with
      | zero => cases hfind
      | succ f => simp [findInChain, hs0] at hfind
  | cons a t ih =>
      obtain ⟨hha, ha, hlt, hrest⟩ := hs
      cases fuel with
      | zero => simp at hf
      | succ f =>
          rw [hha] at hfind
          by_cases hm : (snode pool a).hashval = hv ∧ (snode pool a).idx = k
          · simp only [findInChain, if_neg ha, if_pos hm, Option.some.injEq] at hfind
            exact ⟨hfind ▸ List.mem_cons_self a t, hfind ▸ hm⟩
          · simp only [findInChain, if_neg ha, if_neg hm] at hfind
            obtain ⟨hj, hh, hk⟩ := ih hrest (by simpa using hf) hfind
            exact ⟨List.mem_cons_of_mem a hj, hh, hk⟩

/-! ## Sparse helper lemmas: flatten bookkeeping -/

theorem getD_mem_of_lt (bks : List (List Nat)) (b : Nat) (hb : b < bks.length) :
    bks.getD b [] ∈ bks := by
  have h : bks.getD b [] = bks[b] := by
    simp [List.getD_eq_getElem?_getD, List.getElem?_eq_getElem hb]
  rw [h]
  exact List.getElem_mem hb

theorem mem_flatten_of_getD (bks : List (List Nat)) (b i : Nat) (hb : b < bks.length)
    (hi : i ∈ bks.getD b []) : i ∈ bks.flatten :=
  List.mem_flatten.mpr ⟨_, getD_mem_of_lt bks b hb, hi⟩

theorem flatten_mem_getD (bks : List (List Nat)) (i : Nat) (hi : i ∈ bks.flatten) :
    ∃ b, b < bks.length ∧ i ∈ bks.getD b [] := by
  obtain ⟨x, hx, hix⟩ := List.mem_flatten.mp hi
  obtain ⟨b, hb, rfl⟩ := List.getElem_of_mem hx
  refine ⟨b, hb, ?_⟩
  simpa [List.getD_eq_getElem?_getD, List.getElem?_eq_getElem hb] using hix

theorem nodup_flatten_parts (bks : List (List Nat)) (h : bks.flatten.Nodup) :
    ∀ x ∈ bks, x.Nodup := by
  induction bks with
  | nil => intro x hx; cases hx
  | cons y rest ih =>
      intro x hx
      rw [List.flatten_cons] at h
      rcases List.mem_cons.mp hx with rfl | hx
      · exact (List.nodup_append.mp h).1
      · exact ih (List.nodup_append.mp h).2.1 x hx

theorem nodup_getD (bks : List (List Nat)) (h : bks.flatten.Nodup) (b : Nat) :
    (bks.getD b []).Nodup := by
  by_cases hb : b < bks.length
  · exact nodup_flatten_parts bks h _ (getD_mem_of_lt bks b hb)
  · rw [List.getD_eq_getElem?_getD, List.getElem?_eq_none (by omega)]
    exact List.nodup_nil

theorem flatten_nodup_disjoint (bks : List (List Nat)) (h : bks.flatten.Nodup)
    {b1 b2 i : Nat} (hb1 : b1 < bks.length) (hb2 : b2 < bks.length) (hne : b1 ≠ b2)
    (h1 : i ∈ bks.getD b1 []) (h2 : i ∈ bks.getD b2 []) : False := by
  induction bks generalizing b1 b2 with
  | nil => simp at hb1
  | cons y rest ih =>
      rw [List.flatten_cons, List.nodup_append] at h
      cases b1 with
      | zero =>
          cases b2 with
          | zero => exact hne rfl
          | succ c2 =>
              rw [List.getD_cons_zero] at h1
              rw [List.getD_cons_succ] at h2
              exact h.2.2 h1 (mem_flatten_of_getD rest c2 i (by simpa using hb2) h2)
      | succ c1 =>
          cases b2 with
          | zero =>
              rw [List.getD_cons_succ] at h1
              rw [List.getD_cons_zero] at h2
              exact h.2.2 h2 (mem_flatten_of_getD rest c1 i (by simpa using hb1) h1)
          | succ c2 =>
              rw [List.getD_cons_succ] at h1
              rw [List.getD_cons_succ] at h2
              exact ih h.2.1 (by simpa using hb1) (by simpa using hb2)
                (by omega) h1 h2

theorem flatten_set_perm (bks : List (List Nat)) (b : Nat) (L : List Nat)
    (hb : b < bks.length) :
    ((bks.set b L).flatten ++ bks.getD b []).Perm (L ++ bks.flatten) := by
  induction bks generalizing b with
  | nil => simp at hb
  | cons y rest ih =>
      cases b with
      | zero =>
          simp only [List.set_cons_zero, List.flatten_cons, List.getD_cons_zero]
          rw [List.append_assoc]
          exact List.Perm.append_left L List.perm_append_comm
      | succ c =>
          simp only [List.set_cons_succ, List.flatten_cons, List.getD_cons_succ]
          rw [List.append_assoc]
          refine (List.Perm.append_left y (ih c (by simpa using hb))).trans ?_
          rw [← List.append_assoc, ← List.append_assoc]
          exact List.Perm.append_right rest.flatten List.perm_append_comm

theorem flatten_set_cons_perm (bks : List (List Nat)) (b x : Nat) (hb : b < bks.length) :
    (bks.set b (x :: bks.getD b [])).flatten.Perm (x :: bks.flatten) := by
  induction bks generalizing b with
  | nil => simp at hb
  | cons y rest ih =>
      cases b with
      | zero =>
          simp [List.set_cons_zero, List.flatten_cons, List.getD_cons_zero]
      | succ c =>
          simp only [List.set_cons_succ, List.flatten_cons, List.getD_cons_succ]
          refine (List.Perm.append_left y (ih c (by simpa using hb))).trans ?_
          exact List.perm_middle

theorem nodup_bounded_length (l : List Nat) (n : Nat) (hn : 0 < n) (hnd : l.Nodup)
    (hmem : ∀ i ∈ l, i ≠ 0 ∧ i < n) : l.length < n := by
  classical
  have hsub : l.toFinset ⊆ (Finset.range n).erase 0 := by
    intro i hi
    have hi2 := hmem i (List.mem_toFinset.mp hi)
    exact Finset.mem_erase.mpr ⟨hi2.1, Finset.mem_range.mpr hi2.2⟩
  have hcard := Finset.card_le_card hsub
  have h1 : l.toFinset.card = l.length := List.toFinset_card_of_nodup hnd
  have h2 : ((Finset.range n).erase 0).card = n - 1 := by
    rw [Finset.card_erase_of_mem (Finset.mem_range.mpr hn), Finset.card_range]
  omega

theorem spine_length_le (pool : List SNode) {h : Nat} {l : List Nat} (hp : 0 < pool.length)
    (hs : spine pool h l) (hnd : l.Nodup) : l.length ≤ pool.length := by
  have := nodup_bounded_length l pool.length hp hnd (spine_mem pool hs)
  omega

/-! ## Sparse helper lemmas: the invariant determines the observables -/

theorem structInv_bucket_eq (s : SparseHdr) {bks : List (List Nat)} {fr : List Nat}
    (hp : 0 < s.pool.length) (hinv : StructInv s bks fr) {b : Nat}
    (hb : b < s.hashtab.length) :
    sbucket s b = bks.getD b [] := by
  obtain ⟨hlen, hbk, hfr, hnd, hcond, hhash, hkeys⟩ := hinv
  have hndb : (bks.getD b []).Nodup := nodup_getD bks (List.nodup_append.mp hnd).1 b
  exact spine_chainNodes s.pool (hbk b hb) (spine_length_le s.pool hp (hbk b hb) hndb)

theorem structInv_liveSlots (s : SparseHdr) {bks : List (List Nat)} {fr : List Nat}
    (hp : 0 < s.pool.length) (hinv : StructInv s bks fr) :
    sliveSlots s = bks.flatten := by
  have hlen : bks.length = s.hashtab.length := hinv.1
  have hmap : (List.range s.hashtab.length).map (sbucket s) = bks := by
    apply List.ext_getElem
    · simpa using hlen.symm
    · intro i h1 h2
      have hi : i < s.hashtab.length := by simpa using h1
      rw [List.getElem_map, List.getElem_range, structInv_bucket_eq s hp hinv hi]
      simp [List.getD_eq_getElem?_getD, List.getElem?_eq_getElem h2]
  unfold sliveSlots
  rw [hmap]

theorem structInv_skeys (s : SparseHdr) {bks : List (List Nat)} {fr : List Nat}
    (hp : 0 < s.pool.length) (hinv : StructInv s bks fr) :
    skeys s = bks.flatten.map fun i => (snode s.pool i).idx := by
  unfold skeys
  rw [structInv_liveSlots s hp hinv]

theorem structInv_smap (s : SparseHdr) {bks : List (List Nat)} {fr : List Nat}
    (hp : 0 < s.pool.length) (hinv : StructInv s bks fr) :
    smap s = bks.flatten.map fun i => ((snode s.pool i).idx, (snode s.pool i).value) := by
  unfold smap
  rw [structInv_liveSlots s hp hinv]

theorem structInv_free_eq (s : SparseHdr) {bks : List (List Nat)} {fr : List Nat}
    (hp : 0 < s.pool.length) (hinv : StructInv s bks fr) :
    sfreeChain s = fr := by
  obtain ⟨hlen, hbk, hfr, hnd, hcond, hhash, hkeys⟩ := hinv
  have hndf : fr.Nodup := (List.nodup_append.mp hnd).2.1
  exact spine_chainNodes s.pool hfr (spine_length_le s.pool hp hfr hndf)

/-! ## Sparse helper lemmas: lookup characterization -/

theorem sfind_eq_findInChain (s : SparseHdr) (k : List Nat) (ht : 0 < s.hashtab.length) :
    sfind s k = findInChain s.pool (schash k) k s.pool.length
      (s.hashtab.getD (schash k % s.hashtab.length) 0) := by
  unfold sfind
  rw [if_neg (by omega)]

theorem sfind_none_iff (s : SparseHdr) {bks : List (List Nat)} {fr : List Nat}
    (hp : 0 < s.pool.length) (ht : 0 < s.hashtab.length)
    (hinv : StructInv s bks fr) (k : List Nat) :
    (sfind s k = none ↔ k ∉ skeys s) := by
  have hkeyseq := structInv_skeys s hp hinv
  obtain ⟨hlen, hbk, hfr, hnd, hcond, hhash, hkeys⟩ := hinv
  have hndfl : bks.flatten.Nodup := (List.nodup_append.mp hnd).1
  set hv := schash k with hhv
  have hb : hv % s.hashtab.length < s.hashtab.length := Nat.mod_lt _ ht
  have hsp := hbk _ hb
  have hndb : (bks.getD (hv % s.hashtab.length) []).Nodup := nodup_getD bks hndfl _
  have hfuel := spine_length_le s.pool hp hsp hndb
  rw [sfind_eq_findInChain s k ht, findInChain_none_iff s.pool hv k hsp hfuel, hkeyseq]
  constructor
  · intro hall hk
    obtain ⟨i, hifl, hik⟩ := List.mem_map.mp hk
    obtain ⟨b2, hb2, hib2⟩ := flatten_mem_getD bks i hifl
    have hhashi : (snode s.pool i).hashval = hv := by
      rw [(hhash i hifl).1, hik, hhv]
    have hb2eq : b2 = hv % s.hashtab.length := by
      have := hcond b2 (by omega) i hib2
      rw [hhashi] at this
      omega
    subst hb2eq
    exact hall i hib2 ⟨hhashi, hik⟩
  · intro hk i hib hm
    apply hk
    refine List.mem_map.mpr ⟨i, ?_, hm.2⟩
    exact mem_flatten_of_getD bks _ i (by omega) hib

theorem getD_set_self {α : Type} (l : List α) (i : Nat) (x d : α) (hi : i < l.length) :
    (l.set i x).getD i d = x := by
  simp [List.getD_eq_getElem?_getD, List.getElem?_set_self, hi]

theorem getD_set_ne {α : Type} (l : List α) (i j : Nat) (x d : α) (h : i ≠ j) :
    (l.set i x).getD j d = l.getD j d := by
  simp [List.getD_eq_getElem?_getD, List.getElem?_set_ne h]

theorem sfind_some_spec (s : SparseHdr) {bks : List (List Nat)} {fr : List Nat}
    (hp : 0 < s.pool.length) (ht : 0 < s.hashtab.length)
    (hinv : StructInv s bks fr) (k : List Nat) {j : Nat}
    (hj : sfind s k = some j) :
    j ∈ bks.flatten ∧ (snode s.pool j).hashval = schash k ∧ (snode s.pool j).idx = k := by
  obtain ⟨hlen, hbk, hfr, hnd, hcond, hhash, hkeys⟩ := hinv
  have hndfl : bks.flatten.Nodup := (List.nodup_append.mp hnd).1
  have hb : schash k % s.hashtab.length < s.hashtab.length := Nat.mod_lt _ ht
  have hsp := hbk _ hb
  have hndb : (bks.getD (schash k % s.hashtab.length) []).Nodup := nodup_getD bks hndfl _
  have hfuel := spine_length_le s.pool hp hsp hndb
  rw [sfind_eq_findInChain s k ht] at hj
  obtain ⟨hmem, hh, hk⟩ := findInChain_some s.pool (schash k) k hsp hfuel hj
  exact ⟨mem_flatten_of_getD bks _ j (by omega) hmem, hh, hk⟩

/-! ## Sparse helper lemmas: rehashing -/

theorem rehashChain_spec (l : List Nat) :
    ∀ (pool : List SNode) (tab : List Nat) (bks2 : List (List Nat)) (head fuel : Nat),
      spine pool head l →
      0 < tab.length →
      bks2.length = tab.length →
      (∀ b, b < tab.length → spine pool (tab.getD b 0) (bks2.getD b [])) →
      (∀ b, b < tab.length → ∀ i ∈ bks2.getD b [],
          (snode pool i).hashval % tab.length = b) →
      (∀ i ∈ l, i ∉ bks2.flatten) →
      l.Nodup →
      l.length ≤ fuel →
      ∃ nb : List (List Nat),
        nb.length = tab.length ∧
        (rehashChain pool tab fuel head).2.length = tab.length ∧
        (rehashChain pool tab fuel head).1.length = pool.length ∧
        (∀ b, b < tab.length →
            spine (rehashChain pool tab fuel head).1
              ((rehashChain pool tab fuel head).2.getD b 0) (nb.getD b [])) ∧
        (∀ b, b < tab.length → ∀ i ∈ nb.getD b [],
            (snode (rehashChain pool tab fuel head).1 i).hashval % tab.length = b) ∧
        nb.flatten.Perm (l ++ bks2.flatten) ∧
        (∀ i, (snode (rehashChain pool tab fuel head).1 i).hashval
                = (snode pool i).hashval ∧
              (snode (rehashChain pool tab fuel head).1 i).idx = (snode pool i).idx ∧
              (snode (rehashChain pool tab fuel head).1 i).value
                = (snode pool i).value) ∧
        (∀ j, j ∉ l → snode (rehashChain pool tab fuel head).1 j = snode pool j) := by
  induction l with
  | nil =>
      intro pool tab bks2 head fuel hsp htpos hlen hbk hb2 hdisj hnd hfuel
      have hh0 : head = 0 := hsp
      have hre : rehashChain pool tab fuel head = (pool, tab) := by
        cases fuel with
        | zero => rfl
        | succ f => simp [rehashChain, hh0]
      rw [hre]
      exact ⟨bks2, hlen, rfl, rfl, hbk, hb2, by simp, fun i => ⟨rfl, rfl, rfl⟩,
        fun j _ => rfl⟩
  | cons a t ih =>
      intro pool tab bks2 head fuel hsp htpos hlen hbk hb2 hdisj hnd hfuel
      obtain ⟨hha, ha, hlt, hrest⟩ := hsp
      have hat : a ∉ t := (List.nodup_cons.mp hnd).1
      have hndt : t.Nodup := (List.nodup_cons.mp hnd).2
      cases fuel with
      | zero => simp at hfuel
      | succ f =>
        have hstep : rehashChain pool tab (f + 1) head
            = rehashChain
                (pool.set a { snode pool a with
                  next := tab.getD ((snode pool a).hashval % tab.length) 0 })
                (tab.set ((snode pool a).hashval % tab.length) a) f
                (snode pool a).next := by
          rw [hha]
          simp only [rehashChain, if_neg ha]
        rw [hstep]
        set bkt := (snode pool a).hashval % tab.length with hbkt
        set pool2 := pool.set a { snode pool a with next := tab.getD bkt 0 } with hpool2
        set tab2 := tab.set bkt a with htab2
        have hbktlt : bkt < tab.length := Nat.mod_lt _ htpos
        have hbklen : bkt < bks2.length := by omega
        have hp2len : pool2.length = pool.length := by simp [hpool2]
        have ht2len : tab2.length = tab.length := by simp [htab2]
        have hanotin : ∀ b, b < tab.length → a ∉ bks2.getD b [] := by
          intro b hb hmem
          exact hdisj a (List.mem_cons_self a t)
            (mem_flatten_of_getD bks2 b a (by omega) hmem)
        have hnode2a : snode pool2 a = { snode pool a with next := tab.getD bkt 0 } :=
          snode_set_self pool a _ hlt
        have hnode2ne : ∀ j, j ≠ a → snode pool2 j = snode pool j := by
          intro j hj
          exact snode_set_ne pool a j _ (fun hc => hj hc.symm)
        have hsp2 : spine pool2 (snode pool a).next t := spine_set_outside hrest a _ hat
        set bks2n := bks2.set bkt (a :: bks2.getD bkt []) with hbks2n
        have hlen2 : bks2n.length = tab2.length := by simp [hbks2n, htab2]; omega
        have hflat : bks2n.flatten.Perm (a :: bks2.flatten) :=
          flatten_set_cons_perm bks2 bkt a hbklen
        have hbk2 : ∀ b, b < tab2.length → spine pool2 (tab2.getD b 0) (bks2n.getD b []) := by
          intro b hb
          have hble : b < tab.length := by omega
          by_cases hbeq : b = bkt
          · rw [hbeq, htab2, hbks2n, getD_set_self tab bkt a 0 (by omega),
              getD_set_self bks2 bkt _ [] (by omega)]
            refine ⟨rfl, ha, by omega, ?_⟩
            rw [hnode2a]
            exact spine_set_outside (hbk bkt hbktlt) a _ (hanotin bkt hbktlt)
          · rw [htab2, hbks2n, getD_set_ne tab bkt b a 0 (fun hc => hbeq hc.symm),
              getD_set_ne bks2 bkt b _ [] (fun hc => hbeq hc.symm)]
            exact spine_set_outside (hbk b hble) a _ (hanotin b hble)
        have hb2n : ∀ b, b < tab2.length → ∀ i ∈ bks2n.getD b [],
            (snode pool2 i).hashval % tab2.length = b := by
          intro b hb i hi
          have hble : b < tab.length := by omega
          rw [ht2len]
          by_cases hbeq : b = bkt
          · rw [hbeq] at hi ⊢
            rw [hbks2n, getD_set_self bks2 bkt _ [] (by omega)] at hi
            rcases List.mem_cons.mp hi with rfl | hi
            · rw [hnode2a]
            · rw [hnode2ne i (fun hc => hanotin bkt hbktlt (hc ▸ hi))]
              exact hb2 bkt hbktlt i hi
          · rw [hbks2n, getD_set_ne bks2 bkt b _ [] (fun hc => hbeq hc.symm)] at hi
            rw [hnode2ne i (fun hc => hanotin b hble (hc ▸ hi))]
            exact hb2 b hble i hi
        have hdisjt : ∀ i ∈ t, i ∉ bks2n.flatten := by
          intro i hit hmem
          have : i ∈ a :: bks2.flatten := hflat.mem_iff.mp hmem
          rcases List.mem_cons.mp this with rfl | hmem2
          · exact hat hit
          · exact hdisj i (List.mem_cons_of_mem a hit) hmem2
        obtain ⟨nb, hnb1, hnb2, hnb3, hnb4, hnb5, hnb6, hnb7, hnb8⟩ :=
          ih pool2 tab2 bks2n (snode pool a).next f hsp2 (by omega) hlen2 hbk2 hb2n
            hdisjt hndt (by simpa using hfuel)
        refine ⟨nb, by omega, by omega, by omega, ?_, ?_, ?_, ?_, ?_⟩
        · intro b hb
          exact hnb4 b (by omega)
        · intro b hb i hi
          have hh := hnb5 b (by omega) i hi
          rw [ht2len] at hh
          exact hh
        · refine hnb6.trans ?_
          refine (List.Perm.append_left t hflat).trans ?_
          exact List.perm_middle
        · intro i
          obtain ⟨h1, h2, h3⟩ := hnb7 i
          by_cases hia : i = a
          · subst hia
            rw [h1, h2, h3, hnode2a]
            exact ⟨rfl, rfl, rfl⟩
          · rw [h1, h2, h3, hnode2ne i hia]
            exact ⟨rfl, rfl, rfl⟩
        · intro j hj
          have hja : j ≠ a := fun hc => hj (hc ▸ List.mem_cons_self a t)
          have hjt : j ∉ t := fun hc => hj (List.mem_cons_of_mem a hc)
          rw [hnb8 j hjt, hnode2ne j hja]

theorem spine_forall2 (pool : List SNode) : ∀ (tab : List Nat) (bks : List (List Nat)),
    bks.length = tab.length →
    (∀ b, b < tab.length → spine pool (tab.getD b 0) (bks.getD b [])) →
    List.Forall₂ (spine pool) tab bks := by
  intro tab
  induction tab with
  | nil =>
      intro bks hlen hcond
      cases bks with
      | nil => exact List.Forall₂.nil
      | cons _ _ => simp at hlen
  | cons x tabt ih =>
      intro bks hlen hcond
      cases bks with
      | nil => simp at hlen
      | cons L bkst =>
          refine List.Forall₂.cons ?_ (ih bkst (by simpa using hlen) ?_)
          · simpa using hcond 0 (by simp)
          · intro b hb
            simpa [List.getD_cons_succ] using hcond (b + 1) (by simpa using hb)

theorem forall2_spine_congr {pool pool2 : List SNode}
    (hlen : pool2.length = pool.length) :
    ∀ {heads : List Nat} {ls : List (List Nat)},
      List.Forall₂ (spine pool) heads ls →
      (∀ i ∈ ls.flatten, (snode pool2 i).next = (snode pool i).next) →
      List.Forall₂ (spine pool2) heads ls := by
  intro heads ls hfa
  induction hfa with
  | nil => intro _; exact List.Forall₂.nil
  | cons hrel htail ih =>
      intro hagree
      refine List.Forall₂.cons ?_ (ih ?_)
      · refine spine_congr_next hlen ?_ hrel
        intro i hi
        refine hagree i ?_
        rw [List.flatten_cons]
        exact List.mem_append.mpr (Or.inl hi)
      · intro i hi
        refine hagree i ?_
        rw [List.flatten_cons]
        exact List.mem_append.mpr (Or.inr hi)

theorem rehashFold_spec (fuel : Nat) :
    ∀ (heads : List Nat) (ls : List (List Nat)) (pool : List SNode) (tab : List Nat)
      (dbks : List (List Nat)),
      List.Forall₂ (spine pool) heads ls →
      pool.length = fuel →
      0 < fuel →
      0 < tab.length →
      dbks.length = tab.length →
      (∀ b, b < tab.length → spine pool (tab.getD b 0) (dbks.getD b [])) →
      (∀ b, b < tab.length → ∀ i ∈ dbks.getD b [],
          (snode pool i).hashval % tab.length = b) →
      (ls.flatten ++ dbks.flatten).Nodup →
      ∃ nb : List (List Nat),
        nb.length = tab.length ∧
        (rehashFold fuel (pool, tab) heads).2.length = tab.length ∧
        (rehashFold fuel (pool, tab) heads).1.length = pool.length ∧
        (∀ b, b < tab.length →
            spine (rehashFold fuel (pool, tab) heads).1
              ((rehashFold fuel (pool, tab) heads).2.getD b 0) (nb.getD b [])) ∧
        (∀ b, b < tab.length → ∀ i ∈ nb.getD b [],
            (snode (rehashFold fuel (pool, tab) heads).1 i).hashval % tab.length = b) ∧
        nb.flatten.Perm (ls.flatten ++ dbks.flatten) ∧
        (∀ i, (snode (rehashFold fuel (pool, tab) heads).1 i).hashval
                = (snode pool i).hashval ∧
              (snode (rehashFold fuel (pool, tab) heads).1 i).idx
                = (snode pool i).idx ∧
              (snode (rehashFold fuel (pool, tab) heads).1 i).value
                = (snode pool i).value) ∧
        (∀ j, j ∉ ls.flatten →
            snode (rehashFold fuel (pool, tab) heads).1 j = snode pool j) := by
  intro heads
  induction heads with
  | nil =>
      intro ls pool tab dbks hfa hpl hfpos htpos hdlen hdbk hdb2 hnd
      cases hfa
      exact ⟨dbks, hdlen, rfl, rfl, hdbk, hdb2, by simp, fun i => ⟨rfl, rfl, rfl⟩,
        fun j _ => rfl⟩
  | cons h0 heads2 ih =>
      intro ls pool tab dbks hfa hpl hfpos htpos hdlen hdbk hdb2 hnd
      rcases hfa with _ | ⟨hrel, htail⟩
      rename_i l0 ls2
      have hppos : 0 < pool.length := by omega
      have hnd1 : ((l0 ++ ls2.flatten) ++ dbks.flatten).Nodup := by simpa using hnd
      have hndA : (l0 ++ ls2.flatten).Nodup := (List.nodup_append.mp hnd1).1
      have hdisjAB := (List.nodup_append.mp hnd1).2.2
      have hl0nd : l0.Nodup := (List.nodup_append.mp hndA).1
      have hls2nd : ls2.flatten.Nodup := (List.nodup_append.mp hndA).2.1
      have hdisj0 := (List.nodup_append.mp hndA).2.2
      obtain ⟨nb1, h11, h12, h13, h14, h15, h16, h17, h18⟩ :=
        rehashChain_spec l0 pool tab dbks h0 fuel hrel htpos hdlen hdbk hdb2
          (fun i hi hmem => hdisjAB (List.mem_append.mpr (Or.inl hi)) hmem)
          hl0nd (by rw [← hpl]; exact spine_length_le pool hppos hrel hl0nd)
      have hfold : rehashFold fuel (pool, tab) (h0 :: heads2)
          = rehashFold fuel
              ((rehashChain pool tab fuel h0).1, (rehashChain pool tab fuel h0).2)
              heads2 := rfl
      have hfa2 : List.Forall₂ (spine (rehashChain pool tab fuel h0).1) heads2 ls2 := by
        refine forall2_spine_congr h13 htail ?_
        intro i hi
        rw [h18 i (fun hc => hdisj0 hc hi)]
      have hpermN : (ls2.flatten ++ nb1.flatten).Perm
          ((l0 ++ ls2.flatten) ++ dbks.flatten) := by
        refine (List.Perm.append_left ls2.flatten h16).trans ?_
        rw [← List.append_assoc]
        exact List.Perm.append_right dbks.flatten List.perm_append_comm
      have hnd2 : (ls2.flatten ++ nb1.flatten).Nodup := hpermN.nodup_iff.mpr hnd1
      obtain ⟨nb, g1, g2, g3, g4, g5, g6, g7, g8⟩ :=
        ih ls2 (rehashChain pool tab fuel h0).1 (rehashChain pool tab fuel h0).2 nb1
          hfa2 (by omega) hfpos (by omega) (by omega)
          (fun b hb => h14 b (by omega))
          (fun b hb i hi => by rw [h12]; exact h15 b (by omega) i hi)
          hnd2
      rw [hfold]
      refine ⟨nb, by omega, by omega, by omega, ?_, ?_, ?_, ?_, ?_⟩
      · intro b hb
        exact g4 b (by omega)
      · intro b hb i hi
        have hg := g5 b (by omega) i hi
        rw [h12] at hg
        exact hg
      · refine g6.trans ?_
        refine hpermN.trans ?_
        rw [List.flatten_cons]
      · intro i
        obtain ⟨a1, a2, a3⟩ := g7 i
        obtain ⟨b1, b2, b3⟩ := h17 i
        exact ⟨a1.trans b1, a2.trans b2, a3.trans b3⟩
      · intro j hj
        rw [List.flatten_cons] at hj
        have hj1 : j ∉ l0 := fun hc => hj (List.mem_append.mpr (Or.inl hc))
        have hj2 : j ∉ ls2.flatten := fun hc => hj (List.mem_append.mpr (Or.inr hc))
        rw [g8 j hj2, h18 j hj1]

theorem flatten_replicate_nil (n : Nat) :
    (List.replicate n ([] : List Nat)).flatten = [] := by
  induction n with
  | zero => rfl
  | succ m ih => simp [List.replicate_succ, ih]

theorem getD_replicate {α : Type} (n b : Nat) (x : α) :
    (List.replicate n x).getD b x = x := by
  rcases Nat.lt_or_ge b n with h | h
  · simp [List.getD_eq_getElem?_getD, List.getElem?_replicate, h]
  · rw [List.getD_eq_getElem?_getD, List.getElem?_eq_none (by simpa using h)]
    rfl

theorem resizeHashTab_eq (s : SparseHdr) (newsize : Nat) :
    resizeHashTab s newsize
      = { s with
          pool := (rehashFold s.pool.length
            (s.pool, List.replicate newsize 0) s.hashtab).1,
          hashtab := (rehashFold s.pool.length
            (s.pool, List.replicate newsize 0) s.hashtab).2 } := rfl

theorem resizeHashTab_spec (s : SparseHdr) {bks : List (List Nat)} {fr : List Nat}
    (hp : 0 < s.pool.length) (ht : 0 < s.hashtab.length)
    (hinv : StructInv s bks fr) (newsize : Nat) (hns : 0 < newsize) :
    ∃ nb, StructInv (resizeHashTab s newsize) nb fr ∧
      nb.flatten.Perm bks.flatten ∧
      (resizeHashTab s newsize).pool.length = s.pool.length ∧
      (resizeHashTab s newsize).hashtab.length = newsize ∧
      (resizeHashTab s newsize).freeList = s.freeList ∧
      (resizeHashTab s newsize).nodeCount = s.nodeCount ∧
      (resizeHashTab s newsize).dims = s.dims ∧
      (resizeHashTab s newsize).sizes = s.sizes ∧
      (∀ i, (snode (resizeHashTab s newsize).pool i).hashval
              = (snode s.pool i).hashval ∧
            (snode (resizeHashTab s newsize).pool i).idx = (snode s.pool i).idx ∧
            (snode (resizeHashTab s newsize).pool i).value
              = (snode s.pool i).value) := by
  obtain ⟨hlen, hbk, hfr, hnd, hcond, hhash, hkeys⟩ := hinv
  have hndfl : bks.flatten.Nodup := (List.nodup_append.mp hnd).1
  have hdisjf := (List.nodup_append.mp hnd).2.2
  have hfa : List.Forall₂ (spine s.pool) s.hashtab bks :=
    spine_forall2 s.pool s.hashtab bks hlen hbk
  obtain ⟨nb, g1, g2, g3, g4, g5, g6, g7, g8⟩ :=
    rehashFold_spec s.pool.length s.hashtab bks s.pool (List.replicate newsize 0)
      (List.replicate newsize [])
      hfa rfl hp (by simpa using hns) (by simp)
      (fun b hb => by
        rw [getD_replicate, getD_replicate]
        exact rfl)
      (fun b hb i hi => by
        rw [getD_replicate] at hi
        cases hi)
      (by rw [flatten_replicate_nil]; simpa using hndfl)
  have g6p : nb.flatten.Perm bks.flatten := by
    have := g6
    rw [flatten_replicate_nil, List.append_nil] at this
    exact this
  have hrlen : (List.replicate newsize (0 : Nat)).length = newsize := by simp
  have g2n : (rehashFold s.pool.length (s.pool, List.replicate newsize 0)
      s.hashtab).2.length = newsize := by rw [g2]; exact hrlen
  have hpool : (resizeHashTab s newsize).pool
      = (rehashFold s.pool.length (s.pool, List.replicate newsize 0) s.hashtab).1 := rfl
  have htab : (resizeHashTab s newsize).hashtab
      = (rehashFold s.pool.length (s.pool, List.replicate newsize 0) s.hashtab).2 := rfl
  have hfree : (resizeHashTab s newsize).freeList = s.freeList := rfl
  have hdims : (resizeHashTab s newsize).dims = s.dims := rfl
  refine ⟨nb, ⟨?_, ?_, ?_, ?_, ?_, ?_, ?_⟩, g6p, ?_, ?_, hfree, rfl, hdims, rfl, ?_⟩
  · rw [htab, g1, ← g2]
  · intro b hb
    rw [htab] at hb ⊢
    rw [hpool]
    exact g4 b (by omega)
  · rw [hpool, hfree]
    refine spine_congr_next g3 ?_ hfr
    intro i hi
    rw [g8 i (fun hc => hdisjf hc hi)]
  · exact ((g6p.append_right fr).nodup_iff).mpr hnd
  · intro b hb i hi
    rw [htab] at hb ⊢
    rw [hpool]
    have hg := g5 b (by omega) i hi
    rw [← g2] at hg
    exact hg
  · intro i hi
    rw [hpool, hdims]
    obtain ⟨f1, f2, f3⟩ := g7 i
    rw [f1, f2]
    have hib : i ∈ bks.flatten := g6p.mem_iff.mp hi
    exact ⟨(hhash i hib).1, (hhash i hib).2⟩
  · rw [hpool]
    have hmapeq : nb.flatten.map (fun i =>
        (snode (rehashFold s.pool.length (s.pool, List.replicate newsize 0)
          s.hashtab).1 i).idx)
        = nb.flatten.map (fun i => (snode s.pool i).idx) := by
      refine List.map_congr_left ?_
      intro i hi
      exact (g7 i).2.1
    rw [hmapeq]
    exact ((g6p.map (fun i => (snode s.pool i).idx)).nodup_iff).mpr hkeys
  · rw [hpool]
    exact g3
  · rw [htab]
    exact g2n
  · intro i
    rw [hpool]
    exact g7 i

/-! ## Sparse helper lemmas: small bridges -/

theorem findInChain_head_hit (pool : List SNode) (hv : Nat) (k : List Nat) (fuel j : Nat)
    (hf : 0 < fuel) (hj : j ≠ 0)
    (hm : (snode pool j).hashval = hv ∧ (snode pool j).idx = k) :
    findInChain pool hv k fuel j = some j := by
  cases fuel with
  | zero => omega
  | succ f => simp [findInChain, hj, hm]

theorem findInChain_congr {pool pool2 : List SNode} (hv : Nat) (k : List Nat)
    (hagree : ∀ i, (snode pool2 i).hashval = (snode pool i).hashval ∧
        (snode pool2 i).idx = (snode pool i).idx ∧
        (snode pool2 i).next = (snode pool i).next) :
    ∀ fuel j, findInChain pool2 hv k fuel j = findInChain pool hv k fuel j := by
  intro fuel
  induction fuel with
  | zero => intro j; rfl
  | succ f ih =>
      intro j
      by_cases hj : j = 0
      · simp [findInChain, hj]
      · obtain ⟨h1, h2, h3⟩ := hagree j
        simp only [findInChain, if_neg hj, h1, h2, h3, ih]

theorem structInv_flatten_bounds (s : SparseHdr) {bks : List (List Nat)} {fr : List Nat}
    (hinv : StructInv s bks fr) : ∀ i ∈ bks.flatten, i ≠ 0 ∧ i < s.pool.length := by
  obtain ⟨hlen, hbk, hfr, hnd, hcond, hhash, hkeys⟩ := hinv
  intro i hi
  obtain ⟨b, hb, hib⟩ := flatten_mem_getD bks i hi
  exact spine_mem s.pool (hbk b (by omega)) i hib

theorem structInv_free_bounds (s : SparseHdr) {bks : List (List Nat)} {fr : List Nat}
    (hinv : StructInv s bks fr) : ∀ i ∈ fr, i ≠ 0 ∧ i < s.pool.length :=
  spine_mem s.pool hinv.2.2.1

theorem structInv_set_value (s : SparseHdr) {bks : List (List Nat)} {fr : List Nat}
    (hinv : StructInv s bks fr) (j : Nat) (v : Int) :
    StructInv { s with pool := s.pool.set j { snode s.pool j with value := v } } bks fr := by
  have hlenp : (s.pool.set j { snode s.pool j with value := v }).length
      = s.pool.length := by simp
  have hfield : ∀ i,
      (snode (s.pool.set j { snode s.pool j with value := v }) i).hashval
        = (snode s.pool i).hashval ∧
      (snode (s.pool.set j { snode s.pool j with value := v }) i).idx
        = (snode s.pool i).idx ∧
      (snode (s.pool.set j { snode s.pool j with value := v }) i).next
        = (snode s.pool i).next := by
    intro i
    by_cases hij : i = j
    · subst hij
      by_cases hjlt : i < s.pool.length
      · rw [snode_set_self s.pool i _ hjlt]
        exact ⟨rfl, rfl, rfl⟩
      · rw [snode, List.getD_eq_getElem?_getD, List.getElem?_eq_none (by simpa using hjlt),
          snode, List.getD_eq_getElem?_getD, List.getElem?_eq_none (by omega)]
        exact ⟨rfl, rfl, rfl⟩
    · rw [snode_set_ne s.pool j i _ (fun hc => hij hc.symm)]
      exact ⟨rfl, rfl, rfl⟩
  obtain ⟨hlen, hbk, hfr, hnd, hcond, hhash, hkeys⟩ := hinv
  refine ⟨hlen, ?_, ?_, hnd, ?_, ?_, ?_⟩
  · intro b hb
    exact spine_congr_next hlenp (fun i _ => (hfield i).2.2) (hbk b hb)
  · exact spine_congr_next hlenp (fun i _ => (hfield i).2.2) hfr
  · intro b hb i hi
    rw [(hfield i).1]
    exact hcond b hb i hi
  · intro i hi
    rw [(hfield i).1, (hfield i).2.1]
    exact hhash i hi
  · have hmeq : (bks.flatten.map fun i =>
        (snode (s.pool.set j { snode s.pool j with value := v }) i).idx)
        = bks.flatten.map fun i => (snode s.pool i).idx :=
      List.map_congr_left (fun i _ => (hfield i).2.1)
    rw [hmeq]
    exact hkeys

theorem sptrCreate_eq_newNode (s : SparseHdr) (k : List Nat) (hmiss : sfind s k = none) :
    sptrCreate s k = newNode s k (schash k) := by
  simp [sptrCreate, hmiss]

theorem sptrCreate_eq_found (s : SparseHdr) (k : List Nat) {j : Nat}
    (hfound : sfind s k = some j) : sptrCreate s k = (s, j) := by
  simp [sptrCreate, hfound]

theorem snode_oob (pool : List SNode) (i : Nat) (hi : pool.length ≤ i) :
    snode pool i = default := by
  rw [snode, List.getD_eq_getElem?_getD, List.getElem?_eq_none (by omega)]
  rfl

theorem snode_append_default (pool : List SNode) (i : Nat) :
    snode (pool ++ [default]) i = snode pool i := by
  by_cases hi : i < pool.length
  · exact snode_append_lt pool [default] i hi
  · by_cases hie : i = pool.length
    · rw [hie, snode_append_last, snode_oob pool pool.length (Nat.le_refl _)]
    · rw [snode_oob (pool ++ [default]) i (by simp; omega), snode_oob pool i (by omega)]

/-! ## Sparse helper lemmas: the insertion path -/

theorem growStep_spec (s : SparseHdr) {bks : List (List Nat)} {fr : List Nat}
    (hp : 0 < s.pool.length) (ht : 0 < s.hashtab.length)
    (hinv : StructInv s bks fr) :
    ∃ bks2, StructInv (growStep s) bks2 fr ∧
      bks2.flatten.Perm bks.flatten ∧
      (growStep s).pool.length = s.pool.length ∧
      (growStep s).freeList = s.freeList ∧
      (growStep s).nodeCount = s.nodeCount ∧
      (growStep s).dims = s.dims ∧
      (growStep s).sizes = s.sizes ∧
      (∀ i, (snode (growStep s).pool i).hashval = (snode s.pool i).hashval ∧
            (snode (growStep s).pool i).idx = (snode s.pool i).idx ∧
            (snode (growStep s).pool i).value = (snode s.pool i).value) ∧
      (hashGrow s.nodeCount s.hashtab.length = true →
          (growStep s).hashtab.length = 2 * s.hashtab.length) ∧
      (hashGrow s.nodeCount s.hashtab.length = false →
          (growStep s).hashtab.length = s.hashtab.length) := by
  by_cases hg : hashGrow s.nodeCount s.hashtab.length
  · have hgs : growStep s = resizeHashTab s (s.hashtab.length * 2) := by
      simp [growStep, hg]
    obtain ⟨nb, hinv2, hperm, hpl, htl, hfl, hnc, hd, hsz, hfields⟩ :=
      resizeHashTab_spec s hp ht hinv (s.hashtab.length * 2) (by omega)
    rw [hgs]
    exact ⟨nb, hinv2, hperm, hpl, hfl, hnc, hd, hsz, hfields,
      fun _ => by rw [htl]; ring,
      fun hc => by rw [hg] at hc; cases hc⟩
  · have hgs : growStep s = s := by simp [growStep, hg]
    rw [hgs]
    exact ⟨bks, hinv, List.Perm.refl _, rfl, rfl, rfl, rfl, rfl,
      fun i => ⟨rfl, rfl, rfl⟩,
      fun hc => absurd hc hg, fun _ => rfl⟩

theorem allocNode_spec (s : SparseHdr) {bks : List (List Nat)} {fr : List Nat}
    (hp : 0 < s.pool.length) (hinv : StructInv s bks fr) :
    ∃ fr3, StructInv (allocNode s).1 bks fr3 ∧
      (allocNode s).2 ≠ 0 ∧
      (allocNode s).2 < (allocNode s).1.pool.length ∧
      (allocNode s).2 ∉ bks.flatten ∧
      (allocNode s).2 ∉ fr3 ∧
      (allocNode s).1.hashtab = s.hashtab ∧
      (allocNode s).1.nodeCount = s.nodeCount ∧
      (allocNode s).1.dims = s.dims ∧
      (allocNode s).1.sizes = s.sizes ∧
      s.pool.length ≤ (allocNode s).1.pool.length ∧
      (∀ i, snode (allocNode s).1.pool i = snode s.pool i) ∧
      (s.freeList ≠ 0 → (allocNode s).2 = s.freeList ∧
          (allocNode s).1.pool.length = s.pool.length) ∧
      (s.freeList = 0 → (allocNode s).2 = s.pool.length ∧
          (allocNode s).1.pool.length = s.pool.length + 1) := by
  obtain ⟨hlen, hbk, hfr, hnd, hcond, hhash, hkeys⟩ := hinv
  by_cases hfl : s.freeList ≠ 0
  · have ha : allocNode s
        = ({ s with freeList := (snode s.pool s.freeList).next }, s.freeList) := by
      simp [allocNode, hfl]
    rw [ha]
    cases fr with
    | nil =>
        have h0 : s.freeList = 0 := hfr
        exact absurd h0 hfl
    | cons f0 fr3 =>
        obtain ⟨hf0, hne0, hflt, hrest⟩ := hfr
        have hnddec := List.nodup_append.mp hnd
        have hdisj := hnddec.2.2
        have hf0notb : f0 ∉ bks.flatten := fun hmem =>
          hdisj hmem (List.mem_cons_self f0 fr3)
        have hf0notf : f0 ∉ fr3 := (List.nodup_cons.mp hnddec.2.1).1
        refine ⟨fr3, ⟨hlen, hbk, ?_, ?_, hcond, hhash, hkeys⟩, by rw [hf0]; exact hne0,
          by rw [hf0]; exact hflt, by rw [hf0]; exact hf0notb,
          by rw [hf0]; exact hf0notf, rfl, rfl, rfl, rfl, Nat.le_refl _,
          fun i => rfl, fun _ => ⟨rfl, rfl⟩, fun hc => absurd hc hfl⟩
        · show spine s.pool (snode s.pool s.freeList).next fr3
          rw [hf0]
          exact hrest
        · refine List.Nodup.sublist ?_ hnd
          exact List.Sublist.append_left (List.sublist_cons_self f0 fr3) bks.flatten
  · have hfl0 : s.freeList = 0 := by omega
    have ha : allocNode s = ({ s with pool := s.pool ++ [default] }, s.pool.length) := by
      simp [allocNode, hfl0]
    rw [ha]
    have hbound := structInv_flatten_bounds s ⟨hlen, hbk, hfr, hnd, hcond, hhash, hkeys⟩
    have hfbound := spine_mem s.pool hfr
    refine ⟨fr, ⟨hlen, ?_, ?_, hnd, ?_, ?_, ?_⟩, by omega,
      by simp, fun hmem => by have := hbound _ hmem; omega,
      fun hmem => by have := hfbound _ hmem; omega,
      rfl, rfl, rfl, rfl, by simp,
      fun i => snode_append_default s.pool i,
      fun hc => absurd hfl0 hc, fun _ => ⟨rfl, by simp⟩⟩
    · intro b hb
      refine spine_congr_next (by simp) ?_ (spine_append (hbk b hb) [default])
      intro i hi
      rfl
    · exact spine_append hfr [default]
    · intro b hb i hi
      rw [snode_append_default]
      exact hcond b hb i hi
    · intro i hi
      rw [snode_append_default]
      exact hhash i hi
    · have hmeq : (bks.flatten.map fun i => (snode (s.pool ++ [default]) i).idx)
          = bks.flatten.map fun i => (snode s.pool i).idx :=
        List.map_congr_left (fun i _ => by rw [snode_append_default])
      rw [hmeq]
      exact hkeys

theorem linkNode_spec (s : SparseHdr) (nidx : Nat) {bks : List (List Nat)} {fr : List Nat}
    (ht : 0 < s.hashtab.length)
    (hinv : StructInv s bks fr)
    (hn0 : nidx ≠ 0) (hnlt : nidx < s.pool.length)
    (hnb : nidx ∉ bks.flatten) (hnf : nidx ∉ fr)
    (k : List Nat) (hkd : k.length = s.dims)
    (hknot : k ∉ bks.flatten.map fun i => (snode s.pool i).idx) :
    ∃ bks4,
      StructInv (linkNode (s, nidx) k (schash k)).1 bks4 fr ∧
      bks4.flatten.Perm (nidx :: bks.flatten) ∧
      (linkNode (s, nidx) k (schash k)).2 = nidx ∧
      (linkNode (s, nidx) k (schash k)).1.pool.length = s.pool.length ∧
      (linkNode (s, nidx) k (schash k)).1.hashtab.length = s.hashtab.length ∧
      (linkNode (s, nidx) k (schash k)).1.freeList = s.freeList ∧
      (linkNode (s, nidx) k (schash k)).1.nodeCount = s.nodeCount ∧
      (linkNode (s, nidx) k (schash k)).1.dims = s.dims ∧
      (linkNode (s, nidx) k (schash k)).1.sizes = s.sizes ∧
      snode (linkNode (s, nidx) k (schash k)).1.pool nidx
        = ⟨schash k, s.hashtab.getD (schash k % s.hashtab.length) 0, k, 0⟩ ∧
      (∀ i, i ≠ nidx →
        snode (linkNode (s, nidx) k (schash k)).1.pool i = snode s.pool i) ∧
      (linkNode (s, nidx) k (schash k)).1.hashtab.getD
        (schash k % (linkNode (s, nidx) k (schash k)).1.hashtab.length) 0 = nidx ∧
      sfind (linkNode (s, nidx) k (schash k)).1 k = some nidx := by
  obtain ⟨hlen, hbk, hfr, hnd, hcond, hhash, hkeys⟩ := hinv
  set hv := schash k with hhv
  set b := hv % s.hashtab.length with hb
  have hblt : b < s.hashtab.length := Nat.mod_lt _ ht
  have hblen : b < bks.length := by omega
  set nd : SNode := ⟨hv, s.hashtab.getD b 0, k, 0⟩ with hndd
  set pool4 := s.pool.set nidx nd with hpool4
  set tab4 := s.hashtab.set b nidx with htab4
  have hlk : linkNode (s, nidx) k hv
      = ({ s with pool := pool4, hashtab := tab4 }, nidx) := rfl
  rw [hlk]
  have e1 : ({ s with pool := pool4, hashtab := tab4 } : SparseHdr).pool = pool4 := rfl
  have e2 : ({ s with pool := pool4, hashtab := tab4 } : SparseHdr).hashtab = tab4 := rfl
  have hnode4 : snode pool4 nidx = nd := snode_set_self s.pool nidx nd hnlt
  have hnode4ne : ∀ i, i ≠ nidx → snode pool4 i = snode s.pool i :=
    fun i hi => snode_set_ne s.pool nidx i nd (fun hc => hi hc.symm)
  have hp4len : pool4.length = s.pool.length := by simp [hpool4]
  have ht4len : tab4.length = s.hashtab.length := by simp [htab4]
  have hflat4 : (bks.set b (nidx :: bks.getD b [])).flatten.Perm (nidx :: bks.flatten) :=
    flatten_set_cons_perm bks b nidx hblen
  have hbk4 : ∀ bb, bb < tab4.length →
      spine pool4 (tab4.getD bb 0) ((bks.set b (nidx :: bks.getD b [])).getD bb []) := by
    intro bb hbb
    have hbblt : bb < s.hashtab.length := by omega
    by_cases hbe : bb = b
    · rw [hbe, htab4, getD_set_self s.hashtab b nidx 0 (by omega),
        getD_set_self bks b _ [] (by omega)]
      refine ⟨rfl, hn0, by omega, ?_⟩
      rw [hnode4]
      exact spine_set_outside (hbk b hblt) nidx nd
        (fun hmem => hnb (mem_flatten_of_getD bks b nidx (by omega) hmem))
    · rw [htab4, getD_set_ne s.hashtab b bb nidx 0 (fun hc => hbe hc.symm),
        getD_set_ne bks b bb _ [] (fun hc => hbe hc.symm)]
      exact spine_set_outside (hbk bb hbblt) nidx nd
        (fun hmem => hnb (mem_flatten_of_getD bks bb nidx (by omega) hmem))
  have hfr4 : spine pool4 s.freeList fr := spine_set_outside hfr nidx nd hnf
  have hnd4 : ((bks.set b (nidx :: bks.getD b [])).flatten ++ fr).Nodup := by
    refine ((hflat4.append_right fr).nodup_iff).mpr ?_
    rw [List.cons_append]
    refine List.nodup_cons.mpr ⟨?_, hnd⟩
    intro hmem
    rcases List.mem_append.mp hmem with h | h
    · exact hnb h
    · exact hnf h
  have hcond4 : ∀ bb, bb < tab4.length →
      ∀ i ∈ (bks.set b (nidx :: bks.getD b [])).getD bb [],
        (snode pool4 i).hashval % tab4.length = bb := by
    intro bb hbb i hi
    have hbblt : bb < s.hashtab.length := by omega
    rw [ht4len]
    by_cases hbe : bb = b
    · rw [hbe] at hi ⊢
      rw [getD_set_self bks b _ [] (by omega)] at hi
      rcases List.mem_cons.mp hi with rfl | hi
      · simp only [hnode4]
      · rw [hnode4ne i
          (fun hc => hnb (hc ▸ mem_flatten_of_getD bks b i (by omega) hi))]
        exact hcond b hblt i hi
    · rw [getD_set_ne bks b bb _ [] (fun hc => hbe hc.symm)] at hi
      rw [hnode4ne i
        (fun hc => hnb (hc ▸ mem_flatten_of_getD bks bb i (by omega) hi))]
      exact hcond bb hbblt i hi
  have hhash4 : ∀ i ∈ (bks.set b (nidx :: bks.getD b [])).flatten,
      (snode pool4 i).hashval = schash (snode pool4 i).idx ∧
      (snode pool4 i).idx.length = s.dims := by
    intro i hi
    rcases List.mem_cons.mp (hflat4.mem_iff.mp hi) with rfl | hi2
    · rw [hnode4]
      exact ⟨rfl, hkd⟩
    · rw [hnode4ne i (fun hc => hnb (hc ▸ hi2))]
      exact hhash i hi2
  have hkeys4 : ((bks.set b (nidx :: bks.getD b [])).flatten.map
      fun i => (snode pool4 i).idx).Nodup := by
    refine ((hflat4.map _).nodup_iff).mpr ?_
    rw [List.map_cons]
    refine List.nodup_cons.mpr ⟨?_, ?_⟩
    · rw [hnode4]
      intro hmem
      obtain ⟨i, hi, hik⟩ := List.mem_map.mp hmem
      rw [hnode4ne i (fun hc => hnb (hc ▸ hi))] at hik
      exact hknot (List.mem_map.mpr ⟨i, hi, hik⟩)
    · have hmeq : (bks.flatten.map fun i => (snode pool4 i).idx)
          = bks.flatten.map fun i => (snode s.pool i).idx :=
        List.map_congr_left (fun i hi => by
          rw [hnode4ne i (fun hc => hnb (hc ▸ hi))])
      rw [hmeq]
      exact hkeys
  have hhead4 : tab4.getD (hv % tab4.length) 0 = nidx := by
    rw [ht4len, ← hb, htab4]
    exact getD_set_self s.hashtab b nidx 0 (by omega)
  have hfind4 : sfind ({ s with pool := pool4, hashtab := tab4 }) k = some nidx := by
    rw [sfind_eq_findInChain _ _ (by rw [e2]; omega)]
    rw [e1, e2]
    rw [hhead4]
    refine findInChain_head_hit pool4 hv k pool4.length nidx (by omega) hn0 ?_
    rw [hnode4]
    exact ⟨rfl, rfl⟩
  have hlen4 : (bks.set b (nidx :: bks.getD b [])).length = tab4.length := by
    rw [ht4len]
    simp [hlen]
  refine ⟨bks.set b (nidx :: bks.getD b []),
    ⟨hlen4, hbk4, hfr4, hnd4, hcond4, hhash4, hkeys4⟩,
    hflat4, rfl, hp4len, ht4len, rfl, rfl, rfl, rfl, hnode4, hnode4ne, ?_, hfind4⟩
  rw [e2]
  exact hhead4

theorem newNode_spec (s : SparseHdr) {bks : List (List Nat)} {fr : List Nat}
    (hp : 0 < s.pool.length) (ht : 0 < s.hashtab.length)
    (hinv : StructInv s bks fr) (k : List Nat) (hkd : k.length = s.dims)
    (hknot : k ∉ bks.flatten.map fun i => (snode s.pool i).idx) :
    ∃ bks4 fr4,
      StructInv (newNode s k (schash k)).1 bks4 fr4 ∧
      bks4.flatten.length = bks.flatten.length + 1 ∧
      (newNode s k (schash k)).1.nodeCount = s.nodeCount + 1 ∧
      (newNode s k (schash k)).2 ≠ 0 ∧
      (newNode s k (schash k)).2 < (newNode s k (schash k)).1.pool.length ∧
      (snode (newNode s k (schash k)).1.pool (newNode s k (schash k)).2).idx = k ∧
      (snode (newNode s k (schash k)).1.pool (newNode s k (schash k)).2).hashval
        = schash k ∧
      (snode (newNode s k (schash k)).1.pool (newNode s k (schash k)).2).value = 0 ∧
      sfind (newNode s k (schash k)).1 k = some (newNode s k (schash k)).2 ∧
      (newNode s k (schash k)).1.hashtab.getD
        (schash k % (newNode s k (schash k)).1.hashtab.length) 0
        = (newNode s k (schash k)).2 ∧
      (newNode s k (schash k)).1.dims = s.dims ∧
      (newNode s k (schash k)).1.sizes = s.sizes ∧
      (bks4.flatten.map fun i => (snode (newNode s k (schash k)).1.pool i).idx).Perm
        (k :: bks.flatten.map fun i => (snode s.pool i).idx) ∧
      (∀ i ∈ bks.flatten, i ∈ bks4.flatten ∧
          (snode (newNode s k (schash k)).1.pool i).idx = (snode s.pool i).idx ∧
          (snode (newNode s k (schash k)).1.pool i).value = (snode s.pool i).value) ∧
      (s.freeList ≠ 0 → (newNode s k (schash k)).2 = s.freeList ∧
          (newNode s k (schash k)).1.pool.length = s.pool.length) ∧
      (s.freeList = 0 → (newNode s k (schash k)).2 = s.pool.length ∧
          (newNode s k (schash k)).1.pool.length = s.pool.length + 1) ∧
      (hashGrow (s.nodeCount + 1) s.hashtab.length = true →
          (newNode s k (schash k)).1.hashtab.length = 2 * s.hashtab.length) ∧
      (hashGrow (s.nodeCount + 1) s.hashtab.length = false →
          (newNode s k (schash k)).1.hashtab.length = s.hashtab.length) := by
  have hinv1 : StructInv { s with nodeCount := s.nodeCount + 1 } bks fr := hinv
  obtain ⟨bks2, hinv2, hperm2, hplen2, hfl2, hnc2, hd2, hsz2, hfields2, hgt, hgf⟩ :=
    growStep_spec { s with nodeCount := s.nodeCount + 1 } hp ht hinv1
  generalize hs2 : growStep { s with nodeCount := s.nodeCount + 1 } = s2
    at hinv2 hperm2 hplen2 hfl2 hnc2 hd2 hsz2 hfields2 hgt hgf
  have hp2 : 0 < s2.pool.length := by rw [hplen2]; exact hp
  have ht2 : 0 < s2.hashtab.length := by
    rcases Bool.eq_false_or_eq_true
        (hashGrow ({ s with nodeCount := s.nodeCount + 1 } : SparseHdr).nodeCount
          ({ s with nodeCount := s.nodeCount + 1 } : SparseHdr).hashtab.length)
      with hg | hg
    · rw [hgt hg]
      have : ({ s with nodeCount := s.nodeCount + 1 } : SparseHdr).hashtab.length
          = s.hashtab.length := rfl
      omega
    · rw [hgf hg]; exact ht
  obtain ⟨fr3, hinv3, hne0, hlt3, hnotb3, hnotf3, htab3, hnc3, hd3, hsz3, hplge3,
      hsnode3, hfree3, hgrow3⟩ := allocNode_spec s2 hp2 hinv2
  generalize hs3 : allocNode s2 = p3
    at hinv3 hne0 hlt3 hnotb3 hnotf3 htab3 hnc3 hd3 hsz3 hplge3 hsnode3 hfree3 hgrow3
  have hnewe : newNode s k (schash k) = linkNode (p3.1, p3.2) k (schash k) := by
    rw [← hs3, ← hs2]
    rfl
  have ht3 : 0 < p3.1.hashtab.length := by rw [htab3]; exact ht2
  have hkmap2 : (bks2.flatten.map fun i => (snode s2.pool i).idx).Perm
      (bks.flatten.map fun i => (snode s.pool i).idx) := by
    have h1 : (bks2.flatten.map fun i => (snode s2.pool i).idx).Perm
        (bks.flatten.map fun i => (snode s2.pool i).idx) := hperm2.map _
    have h2 : (bks.flatten.map fun i => (snode s2.pool i).idx)
        = bks.flatten.map fun i => (snode s.pool i).idx :=
      List.map_congr_left (fun i _ => (hfields2 i).2.1)
    exact h2 ▸ h1
  have hkmap3 : (bks2.flatten.map fun i => (snode p3.1.pool i).idx)
      = bks2.flatten.map fun i => (snode s2.pool i).idx :=
    List.map_congr_left (fun i _ => by rw [hsnode3 i])
  have hknot3 : k ∉ bks2.flatten.map fun i => (snode p3.1.pool i).idx := by
    rw [hkmap3]
    intro hmem
    exact hknot (hkmap2.mem_iff.mp hmem)
  have hkd3 : k.length = p3.1.dims := by
    rw [hd3, hd2]
    exact hkd
  obtain ⟨bks4, hinv4, hperm4, hr2, hpl4, htl4, hfl4, hnc4, hd4, hsz4, hnode4,
      hnode4ne, hhead4, hfind4⟩ :=
    linkNode_spec p3.1 p3.2 ht3 hinv3 hne0 hlt3 hnotb3 hnotf3 k hkd3 hknot3
  rw [hnewe]
  have hcount : (linkNode (p3.1, p3.2) k (schash k)).1.nodeCount = s.nodeCount + 1 := by
    rw [hnc4, hnc3, hnc2]
  have hnodef : snode (linkNode (p3.1, p3.2) k (schash k)).1.pool p3.2
      = ⟨schash k, p3.1.hashtab.getD (schash k % p3.1.hashtab.length) 0, k, 0⟩ :=
    hnode4
  refine ⟨bks4, fr3, hinv4, ?_, hcount, ?_, ?_, ?_, ?_, ?_, ?_, ?_, ?_, ?_, ?_, ?_,
    ?_, ?_, ?_, ?_⟩
  · rw [hperm4.length_eq, List.length_cons, hperm2.length_eq]
  · rw [hr2]; exact hne0
  · rw [hr2, hpl4]; exact hlt3
  · rw [hr2, hnodef]
  · rw [hr2, hnodef]
  · rw [hr2, hnodef]
  · rw [hr2]; exact hfind4
  · rw [hr2]; exact hhead4
  · rw [hd4, hd3, hd2]
  · rw [hsz4, hsz3, hsz2]
  · refine ((hperm4.map _).trans ?_)
    rw [List.map_cons, hnodef]
    have hmeq : (bks2.flatten.map fun i =>
        (snode (linkNode (p3.1, p3.2) k (schash k)).1.pool i).idx)
        = bks2.flatten.map fun i => (snode p3.1.pool i).idx :=
      List.map_congr_left (fun i hi => by
        rw [hnode4ne i (fun hc => hnotb3 (hc ▸ hi))])
    rw [hmeq, hkmap3]
    exact List.Perm.cons _ hkmap2
  · intro i hi
    have hi2 : i ∈ bks2.flatten := hperm2.mem_iff.mpr hi
    have hine : i ≠ p3.2 := fun hc => hnotb3 (hc ▸ hi2)
    refine ⟨hperm4.mem_iff.mpr (List.mem_cons_of_mem _ hi2), ?_, ?_⟩
    · rw [hnode4ne i hine, hsnode3 i]
      exact (hfields2 i).2.1
    · rw [hnode4ne i hine, hsnode3 i]
      exact (hfields2 i).2.2
  · intro hfl
    have hfl2e : s2.freeList ≠ 0 := by
      rw [hfl2]
      exact hfl
    obtain ⟨ha, hb2⟩ := hfree3 hfl2e
    constructor
    · rw [hr2, ha, hfl2]
    · rw [hpl4, hb2, hplen2]
  · intro hfl
    have hfl2e : s2.freeList = 0 := by
      rw [hfl2]
      exact hfl
    obtain ⟨ha, hb2⟩ := hgrow3 hfl2e
    constructor
    · rw [hr2, ha, hplen2]
    · rw [hpl4, hb2, hplen2]
  · intro hg
    rw [htl4, htab3]
    exact hgt hg
  · intro hg
    rw [htl4, htab3]
    exact hgf hg

theorem snode_fields_set_value (pool : List SNode) (j : Nat) (v : Int) :
    ∀ i, (snode (pool.set j { snode pool j with value := v }) i).hashval
          = (snode pool i).hashval ∧
        (snode (pool.set j { snode pool j with value := v }) i).idx
          = (snode pool i).idx ∧
        (snode (pool.set j { snode pool j with value := v }) i).next
          = (snode pool i).next := by
  intro i
  by_cases hij : i = j
  · subst hij
    by_cases hjlt : i < pool.length
    · rw [snode_set_self pool i _ hjlt]
      exact ⟨rfl, rfl, rfl⟩
    · rw [snode_oob (pool.set i _) i (by simp only [List.length_set]; omega),
        snode_oob pool i (by omega)]
      exact ⟨rfl, rfl, rfl⟩
  · rw [snode_set_ne pool j i _ (fun hc => hij hc.symm)]
    exact ⟨rfl, rfl, rfl⟩

theorem sfind_set_value (s : SparseHdr) (j : Nat) (v : Int) (k : List Nat) :
    sfind { s with pool := s.pool.set j { snode s.pool j with value := v } } k
      = sfind s k := by
  have h1 : ({ s with pool := s.pool.set j { snode s.pool j with value := v } }
      : SparseHdr).hashtab = s.hashtab := rfl
  have h2 : ({ s with pool := s.pool.set j { snode s.pool j with value := v } }
      : SparseHdr).pool = s.pool.set j { snode s.pool j with value := v } := rfl
  unfold sfind
  rw [h1, h2, List.length_set]
  by_cases ht : s.hashtab.length = 0
  · rw [if_pos ht, if_pos ht]
  · rw [if_neg ht, if_neg ht]
    exact findInChain_congr (schash k) k (snode_fields_set_value s.pool j v) _ _

theorem flatten_idx_inj (s : SparseHdr) {bks : List (List Nat)} {fr : List Nat}
    (hinv : StructInv s bks fr) :
    ∀ i1 ∈ bks.flatten, ∀ i2 ∈ bks.flatten,
      (snode s.pool i1).idx = (snode s.pool i2).idx → i1 = i2 :=
  List.inj_on_of_nodup_map hinv.2.2.2.2.2.2

theorem sfind_of_mem (s : SparseHdr) {bks : List (List Nat)} {fr : List Nat}
    (hp : 0 < s.pool.length) (ht : 0 < s.hashtab.length)
    (hinv : StructInv s bks fr) {j : Nat} (hj : j ∈ bks.flatten) :
    sfind s (snode s.pool j).idx = some j ∧
    svalue s (snode s.pool j).idx = (snode s.pool j).value := by
  have hk : (snode s.pool j).idx ∈ skeys s := by
    rw [structInv_skeys s hp hinv]
    exact List.mem_map.mpr ⟨j, hj, rfl⟩
  have hne : sfind s (snode s.pool j).idx ≠ none := by
    intro hc
    exact (sfind_none_iff s hp ht hinv _).mp hc hk
  obtain ⟨j2, hj2⟩ := Option.ne_none_iff_exists.mp hne
  obtain ⟨hj2m, _, hj2i⟩ := sfind_some_spec s hp ht hinv _ hj2.symm
  have hjj : j2 = j := flatten_idx_inj s hinv j2 hj2m j hj hj2i
  subst hjj
  refine ⟨hj2.symm, ?_⟩
  rw [svalue, hj2.symm]

theorem srefSet_found_spec (s : SparseHdr) {bks : List (List Nat)} {fr : List Nat}
    (hp : 0 < s.pool.length) (ht : 0 < s.hashtab.length)
    (hinv : StructInv s bks fr) (k : List Nat) (v : Int) {j : Nat}
    (hj : sfind s k = some j) :
    StructInv (srefSet s k v) bks fr ∧
    (srefSet s k v).hashtab = s.hashtab ∧
    (srefSet s k v).pool.length = s.pool.length ∧
    (srefSet s k v).freeList = s.freeList ∧
    (srefSet s k v).nodeCount = s.nodeCount ∧
    (srefSet s k v).dims = s.dims ∧
    (srefSet s k v).sizes = s.sizes ∧
    sfind (srefSet s k v) k = some j ∧
    svalue (srefSet s k v) k = v ∧
    (∀ i, (snode (srefSet s k v).pool i).idx = (snode s.pool i).idx) ∧
    (∀ i, i ≠ j → (snode (srefSet s k v).pool i).value = (snode s.pool i).value) := by
  obtain ⟨hjm, hjh, hji⟩ := sfind_some_spec s hp ht hinv k hj
  have hjlt : j < s.pool.length := (structInv_flatten_bounds s hinv j hjm).2
  have hsr : srefSet s k v
      = { s with pool := s.pool.set j { snode s.pool j with value := v } } := by
    unfold srefSet
    rw [sptrCreate_eq_found s k hj]
  rw [hsr]
  have hfind2 : sfind { s with
      pool := s.pool.set j { snode s.pool j with value := v } } k = some j := by
    rw [sfind_set_value]
    exact hj
  refine ⟨structInv_set_value s hinv j v, rfl, by simp, rfl, rfl, rfl, rfl,
    hfind2, ?_, ?_, ?_⟩
  · have h3 : svalue { s with
        pool := s.pool.set j { snode s.pool j with value := v } } k
        = (snode ({ s with
            pool := s.pool.set j { snode s.pool j with value := v } }
              : SparseHdr).pool j).value := by
      rw [svalue, hfind2]
    rw [h3]
    have h4 : snode ({ s with
        pool := s.pool.set j { snode s.pool j with value := v } } : SparseHdr).pool j
        = { snode s.pool j with value := v } := snode_set_self s.pool j _ hjlt
    rw [h4]
  · intro i
    exact (snode_fields_set_value s.pool j v i).2.1
  · intro i hij
    have : snode ({ s with
        pool := s.pool.set j { snode s.pool j with value := v } } : SparseHdr).pool i
        = snode s.pool i := snode_set_ne s.pool j i _ (fun hc => hij hc.symm)
    rw [this]

theorem srefSet_miss_spec (s : SparseHdr) {bks : List (List Nat)} {fr : List Nat}
    (hp : 0 < s.pool.length) (ht : 0 < s.hashtab.length)
    (hinv : StructInv s bks fr) (k : List Nat) (v : Int)
    (hkd : k.length = s.dims) (hmiss : sfind s k = none) :
    ∃ bks4 fr4,
      StructInv (srefSet s k v) bks4 fr4 ∧
      bks4.flatten.length = bks.flatten.length + 1 ∧
      (srefSet s k v).nodeCount = s.nodeCount + 1 ∧
      (srefSet s k v).dims = s.dims ∧
      (srefSet s k v).sizes = s.sizes ∧
      0 < (srefSet s k v).pool.length ∧
      svalue (srefSet s k v) k = v ∧
      (bks4.flatten.map fun i => (snode (srefSet s k v).pool i).idx).Perm
        (k :: bks.flatten.map fun i => (snode s.pool i).idx) ∧
      (∀ i ∈ bks.flatten, i ∈ bks4.flatten ∧
          (snode (srefSet s k v).pool i).idx = (snode s.pool i).idx ∧
          (snode (srefSet s k v).pool i).value = (snode s.pool i).value) ∧
      (s.freeList ≠ 0 → (srefSet s k v).pool.length = s.pool.length) ∧
      (s.freeList = 0 → (srefSet s k v).pool.length = s.pool.length + 1) ∧
      (hashGrow (s.nodeCount + 1) s.hashtab.length = true →
          (srefSet s k v).hashtab.length = 2 * s.hashtab.length) ∧
      (hashGrow (s.nodeCount + 1) s.hashtab.length = false →
          (srefSet s k v).hashtab.length = s.hashtab.length) := by
  have hknot : k ∉ bks.flatten.map fun i => (snode s.pool i).idx := by
    have := (sfind_none_iff s hp ht hinv k).mp hmiss
    rw [structInv_skeys s hp hinv] at this
    exact this
  obtain ⟨bks4, fr4, hinv4, hflen4, hnc4, hne04, hlt4, hidx4, hhv4, hval4, hfind4,
      hhead4, hd4, hsz4, hkperm4, hpair4, hfree4, hgrow4, hgt4, hgf4⟩ :=
    newNode_spec s hp ht hinv k hkd hknot
  have hsr : srefSet s k v
      = { (newNode s k (schash k)).1 with
          pool := (newNode s k (schash k)).1.pool.set (newNode s k (schash k)).2
            { snode (newNode s k (schash k)).1.pool (newNode s k (schash k)).2 with
              value := v } } := by
    unfold srefSet
    rw [sptrCreate_eq_newNode s k hmiss]
  rw [hsr]
  have hfields := snode_fields_set_value (newNode s k (schash k)).1.pool
    (newNode s k (schash k)).2 v
  refine ⟨bks4, fr4, structInv_set_value _ hinv4 _ v, hflen4, hnc4, hd4, hsz4,
    by simp only [List.length_set]; omega, ?_, ?_, ?_, ?_, ?_, ?_, ?_⟩
  · have hfind2 : sfind { (newNode s k (schash k)).1 with
        pool := (newNode s k (schash k)).1.pool.set (newNode s k (schash k)).2
          { snode (newNode s k (schash k)).1.pool (newNode s k (schash k)).2 with
            value := v } } k = some (newNode s k (schash k)).2 := by
      rw [sfind_set_value]
      exact hfind4
    have h3 : svalue { (newNode s k (schash k)).1 with
        pool := (newNode s k (schash k)).1.pool.set (newNode s k (schash k)).2
          { snode (newNode s k (schash k)).1.pool (newNode s k (schash k)).2 with
            value := v } } k
        = (snode ({ (newNode s k (schash k)).1 with
            pool := (newNode s k (schash k)).1.pool.set (newNode s k (schash k)).2
              { snode (newNode s k (schash k)).1.pool (newNode s k (schash k)).2 with
                value := v } } : SparseHdr).pool (newNode s k (schash k)).2).value := by
      rw [svalue, hfind2]
    rw [h3]
    have hset : snode ({ (newNode s k (schash k)).1 with
        pool := (newNode s k (schash k)).1.pool.set (newNode s k (schash k)).2
          { snode (newNode s k (schash k)).1.pool (newNode s k (schash k)).2 with
            value := v } } : SparseHdr).pool (newNode s k (schash k)).2
        = { snode (newNode s k (schash k)).1.pool (newNode s k (schash k)).2 with
            value := v } :=
      snode_set_self _ _ _ hlt4
    rw [hset]
  · have hmeq : (bks4.flatten.map fun i =>
        (snode ({ (newNode s k (schash k)).1 with
          pool := (newNode s k (schash k)).1.pool.set (newNode s k (schash k)).2
            { snode (newNode s k (schash k)).1.pool (newNode s k (schash k)).2 with
              value := v } } : SparseHdr).pool i).idx)
        = bks4.flatten.map fun i => (snode (newNode s k (schash k)).1.pool i).idx :=
      List.map_congr_left (fun i _ => (hfields i).2.1)
    rw [hmeq]
    exact hkperm4
  · intro i hi
    obtain ⟨hi4, hidx, hval⟩ := hpair4 i hi
    have hine : i ≠ (newNode s k (schash k)).2 := by
      intro hc
      by_cases hfl : s.freeList = 0
      · obtain ⟨ha, _⟩ := hgrow4 hfl
        have hbd := (structInv_flatten_bounds s hinv i hi).2
        omega
      · obtain ⟨ha, _⟩ := hfree4 hfl
        have hfr := hinv.2.2.1
        have hnd := hinv.2.2.2.1
        cases hfr2 : fr with
        | nil =>
            rw [hfr2] at hfr
            exact hfl hfr
        | cons a t =>
            rw [hfr2] at hfr
            obtain ⟨hha, _, _, _⟩ := hfr
            have hmemfr : s.freeList ∈ fr := by
              rw [hfr2, hha]
              exact List.mem_cons_self a t
            have hdisj := (List.nodup_append.mp hnd).2.2
            exact hdisj hi (by rw [hc, ha]; exact hmemfr)
    exact ⟨hi4, by rw [(hfields i).2.1]; exact hidx, by
      rw [snode_set_ne _ _ _ _ (fun hc => hine hc.symm)]; exact hval⟩
  · intro hfl
    rw [List.length_set]
    exact (hfree4 hfl).2
  · intro hfl
    rw [List.length_set]
    exact (hgrow4 hfl).2
  · intro hg
    exact hgt4 hg
  · intro hg
    exact hgf4 hg

theorem exists_first_split {α : Type} (P : α → Prop) [DecidablePred P] :
    ∀ l : List α, (∃ x ∈ l, P x) →
      ∃ l1 x l2, l = l1 ++ x :: l2 ∧ (∀ y ∈ l1, ¬P y) ∧ P x := by
  intro l
  induction l with
  | nil => intro h; obtain ⟨x, hx, _⟩ := h; cases hx
  | cons a t ih =>
      intro h
      by_cases ha : P a
      · exact ⟨[], a, t, rfl, ⟨fun y hy => absurd hy (List.not_mem_nil y), ha⟩⟩
      · obtain ⟨x, hx, hPx⟩ := h
        rcases List.mem_cons.mp hx with rfl | hxt
        · exact absurd hPx ha
        · obtain ⟨l1, y, l2, heq, hl1, hy⟩ := ih ⟨x, hxt, hPx⟩
          refine ⟨a :: l1, y, l2, by rw [heq]; rfl, ?_, hy⟩
          intro z hz
          rcases List.mem_cons.mp hz with rfl | hz2
          · exact ha
          · exact hl1 z hz2

theorem findPred_none (pool : List SNode) (hv : Nat) (k : List Nat) :
    ∀ (l : List Nat) (fuel prev head : Nat), spine pool head l → l.length ≤ fuel →
      (∀ i ∈ l, ¬((snode pool i).hashval = hv ∧ (snode pool i).idx = k)) →
      findPred pool hv k fuel prev head = none := by
  intro l
  induction l with
  | nil =>
      intro fuel prev head hs hf hall
      have hs0 : head = 0 := hs
      cases fuel with
      | zero => rfl
      | succ f => simp [findPred, hs0]
  | cons a t ih =>
      intro fuel prev head hs hf hall
      obtain ⟨hha, ha, hlt, hrest⟩ := hs
      cases fuel with
      | zero => simp at hf
      | succ f =>
          rw [hha]
          have hma : ¬((snode pool a).hashval = hv ∧ (snode pool a).idx = k) :=
            hall a (List.mem_cons_self a t)
          simp only [findPred, if_neg ha, if_neg hma]
          exact ih f a _ hrest (by simpa using hf)
            (fun i hi => hall i (List.mem_cons_of_mem a hi))

theorem findPred_found (pool : List SNode) (hv : Nat) (k : List Nat) :
    ∀ (l1 : List Nat) (j : Nat) (l2 : List Nat) (fuel prev head : Nat),
      spine pool head (l1 ++ j :: l2) → (l1 ++ j :: l2).length ≤ fuel →
      (∀ i ∈ l1, ¬((snode pool i).hashval = hv ∧ (snode pool i).idx = k)) →
      ((snode pool j).hashval = hv ∧ (snode pool j).idx = k) →
      findPred pool hv k fuel prev head = some (l1.getLastD prev, j) := by
  intro l1
  induction l1 with
  | nil =>
      intro j l2 fuel prev head hs hf hl1 hj
      obtain ⟨hha, ha, hlt, hrest⟩ := hs
      cases fuel with
      | zero => simp at hf
      | succ f =>
          rw [hha]
          simp [findPred, if_neg ha, if_pos hj]
  | cons a t ih =>
      intro j l2 fuel prev head hs hf hl1 hj
      obtain ⟨hha, ha, hlt, hrest⟩ := hs
      cases fuel with
      | zero => simp at hf
      | succ f =>
          rw [hha]
          have hma : ¬((snode pool a).hashval = hv ∧ (snode pool a).idx = k) :=
            hl1 a (List.mem_cons_self a t)
          simp only [findPred, if_neg ha, if_neg hma]
          rw [List.getLastD_cons]
          exact ih j l2 f a _ hrest (by simpa using hf)
            (fun i hi => hl1 i (List.mem_cons_of_mem a hi)) hj

theorem spine_unlink {pool pool2 : List SNode} (hlen : pool2.length = pool.length)
    (j : Nat) (l2 : List Nat) :
    ∀ (l1 : List Nat) (head p : Nat),
      spine pool head (l1 ++ j :: l2) →
      (l1 ++ j :: l2).Nodup →
      (∀ i, i ≠ p → i ≠ j → (snode pool2 i).next = (snode pool i).next) →
      (l1 = [] → p = 0) →
      (l1 ≠ [] → l1.getLast? = some p ∧ (snode pool2 p).next = (snode pool j).next) →
      (l1 = [] → spine pool2 (snode pool j).next l2) ∧
      (l1 ≠ [] → spine pool2 head (l1 ++ l2)) := by
  intro l1
  induction l1 with
  | nil =>
      intro head p hs hnd hag hp0 hlast
      refine ⟨fun _ => ?_, fun hne => (hne rfl).elim⟩
      obtain ⟨hhj, hj0, hjlt, hrest⟩ := hs
      refine spine_congr_next hlen ?_ hrest
      intro i hi
      have hij : i ≠ j := by
        intro hc
        have hnd2 : (j :: l2).Nodup := hnd
        exact (List.nodup_cons.mp hnd2).1 (hc ▸ hi)
      have hip : i ≠ p := by
        rw [hp0 rfl]
        exact (spine_mem pool hrest i hi).1
      exact hag i hip hij
  | cons a t ih =>
      intro head p hs hnd hag hp0 hlast
      refine ⟨fun hc => absurd hc (by simp), fun _ => ?_⟩
      obtain ⟨hha, ha0, halt, hrest⟩ := hs
      obtain ⟨hgl, hpn⟩ := hlast (by simp)
      have hnd2 : (a :: (t ++ j :: l2)).Nodup := hnd
      have hndt : (t ++ j :: l2).Nodup := (List.nodup_cons.mp hnd2).2
      have hanotin : a ∉ t ++ j :: l2 := (List.nodup_cons.mp hnd2).1
      refine ⟨hha, ha0, by omega, ?_⟩
      by_cases hte : t = []
      · subst hte
        have hap : a = p := by
          rw [List.getLast?_singleton] at hgl
          exact Option.some.inj hgl
        have hrest2 : spine pool (snode pool a).next (j :: l2) := hrest
        obtain ⟨hanext, hj0, hjlt, hrestl2⟩ := hrest2
        have hgoal : spine pool2 (snode pool2 a).next l2 := by
          have hpn2 : (snode pool2 a).next = (snode pool j).next := by
            rw [hap]
            exact hpn
          rw [hpn2]
          refine spine_congr_next hlen ?_ hrestl2
          intro i hi
          have hndjl : (j :: l2).Nodup := hndt
          have hij : i ≠ j := by
            intro hc
            exact (List.nodup_cons.mp hndjl).1 (hc ▸ hi)
          have hip : i ≠ p := by
            intro hc
            apply hanotin
            rw [hap, ← hc]
            exact List.mem_cons_of_mem j hi
          exact hag i hip hij
        exact hgoal
      · obtain ⟨b, t2, rfl⟩ := List.exists_cons_of_ne_nil hte
        rw [List.getLast?_cons_cons] at hgl
        have hne2 : b :: t2 ≠ [] := by simp
        have hpmem : p ∈ b :: t2 := by
          rw [List.getLast?_eq_getLast _ hne2] at hgl
          have hm := List.getLast_mem hne2
          rw [Option.some.inj hgl] at hm
          exact hm
        have hap : a ≠ p := by
          intro hc
          apply hanotin
          rw [hc]
          exact List.mem_append_left _ hpmem
        have haj : a ≠ j := by
          intro hc
          apply hanotin
          rw [hc]
          exact List.mem_append_right _ (List.mem_cons_self j l2)
        rw [hag a hap haj]
        exact (ih (snode pool a).next p hrest hndt hag
          (fun hc => absurd hc (by simp))
          (fun _ => ⟨hgl, hpn⟩)).2 (by simp)

theorem snode_fields_set_next (pool : List SNode) (j x : Nat) :
    ∀ i, (snode (pool.set j { snode pool j with next := x }) i).hashval
          = (snode pool i).hashval ∧
        (snode (pool.set j { snode pool j with next := x }) i).idx
          = (snode pool i).idx ∧
        (snode (pool.set j { snode pool j with next := x }) i).value
          = (snode pool i).value := by
  intro i
  by_cases hij : i = j
  · subst hij
    by_cases hjlt : i < pool.length
    · rw [snode_set_self pool i _ hjlt]
      exact ⟨rfl, rfl, rfl⟩
    · rw [snode_oob (pool.set i _) i (by simp only [List.length_set]; omega),
        snode_oob pool i (by omega)]
      exact ⟨rfl, rfl, rfl⟩
  · rw [snode_set_ne pool j i _ (fun hc => hij hc.symm)]
    exact ⟨rfl, rfl, rfl⟩

theorem flatten_set_remove_perm (bks : List (List Nat)) :
    ∀ (b : Nat) (l1 : List Nat) (j : Nat) (l2 : List Nat), b < bks.length →
      bks.getD b [] = l1 ++ j :: l2 →
      bks.flatten.Perm (j :: (bks.set b (l1 ++ l2)).flatten) := by
  induction bks with
  | nil => intro b l1 j l2 hb; simp at hb
  | cons y rest ih =>
      intro b l1 j l2 hb hgd
      cases b with
      | zero =>
          rw [List.getD_cons_zero] at hgd
          simp only [List.set_cons_zero, List.flatten_cons, hgd]
          rw [List.append_assoc, List.append_assoc]
          exact List.perm_middle
      | succ c =>
          rw [List.getD_cons_succ] at hgd
          simp only [List.set_cons_succ, List.flatten_cons]
          have h := ih c l1 j l2 (by simpa using hb) hgd
          refine (List.Perm.append_left y h).trans ?_
          exact List.perm_middle

theorem unlink_structInv (s : SparseHdr) {bks : List (List Nat)} {fr : List Nat}
    (hp : 0 < s.pool.length) (ht : 0 < s.hashtab.length)
    (hinv : StructInv s bks fr)
    {b j p : Nat} {l1 l2 : List Nat} (hb : b < s.hashtab.length)
    (hgd : bks.getD b [] = l1 ++ j :: l2)
    (hp0 : l1 = [] → p = 0)
    (hplast : l1 ≠ [] → l1.getLast? = some p)
    (S : SparseHdr)
    (hSpoollen : S.pool.length = s.pool.length)
    (hSfields : ∀ i, (snode S.pool i).hashval = (snode s.pool i).hashval ∧
        (snode S.pool i).idx = (snode s.pool i).idx ∧
        (snode S.pool i).value = (snode s.pool i).value)
    (hSnext : ∀ i, i ≠ p → i ≠ j → (snode S.pool i).next = (snode s.pool i).next)
    (hSnextj : (snode S.pool j).next = s.freeList)
    (hSnextp : l1 ≠ [] → (snode S.pool p).next = (snode s.pool j).next)
    (hStablen : S.hashtab.length = s.hashtab.length)
    (hShead_ne : ∀ b2, b2 ≠ b → S.hashtab.getD b2 0 = s.hashtab.getD b2 0)
    (hShead_b : S.hashtab.getD b 0
        = if l1 = [] then (snode s.pool j).next else s.hashtab.getD b 0)
    (hSfree : S.freeList = j)
    (hSdims : S.dims = s.dims) :
    StructInv S (bks.set b (l1 ++ l2)) (j :: fr) ∧
    bks.flatten.Perm (j :: (bks.set b (l1 ++ l2)).flatten) := by
  obtain ⟨hlen, hbk, hfr, hnd, hcond, hhash, hkeys⟩ := hinv
  have hbb : b < bks.length := by omega
  have hndfl : bks.flatten.Nodup := (List.nodup_append.mp hnd).1
  have hchain := hbk b hb
  rw [hgd] at hchain
  have hndl : (l1 ++ j :: l2).Nodup := by
    rw [← hgd]
    exact nodup_getD bks hndfl b
  have hjl : j ∈ l1 ++ j :: l2 := List.mem_append_right _ (List.mem_cons_self j l2)
  have hjgd : j ∈ bks.getD b [] := by rw [hgd]; exact hjl
  have hjfl : j ∈ bks.flatten := mem_flatten_of_getD bks b j hbb hjgd
  obtain ⟨hj0, hjlt⟩ := spine_mem s.pool hchain j hjl
  have hpmem : l1 ≠ [] → p ∈ l1 := by
    intro hne
    have hgl := hplast hne
    rw [List.getLast?_eq_getLast _ hne] at hgl
    have hm := List.getLast_mem hne
    rw [Option.some.inj hgl] at hm
    exact hm
  have hperm := flatten_set_remove_perm bks b l1 j l2 hbb hgd
  have hother : ∀ b2, b2 < s.hashtab.length → b2 ≠ b →
      ∀ i ∈ bks.getD b2 [], i ≠ j ∧ i ≠ p := by
    intro b2 hb2 hne i hi
    constructor
    · intro hc
      exact flatten_nodup_disjoint bks hndfl (by omega) hbb hne (hc ▸ hi) hjgd
    · intro hc
      by_cases hl1e : l1 = []
      · have hnz := (spine_mem s.pool (hbk b2 hb2) i hi).1
        rw [hp0 hl1e] at hc
        exact hnz hc
      · have hpgd : p ∈ bks.getD b [] := by
          rw [hgd]
          exact List.mem_append_left _ (hpmem hl1e)
        exact flatten_nodup_disjoint bks hndfl (by omega) hbb hne (hc ▸ hi) hpgd
  have hfrne : ∀ i ∈ fr, i ≠ j ∧ i ≠ p := by
    intro i hi
    have hdisj := (List.nodup_append.mp hnd).2.2
    constructor
    · intro hc
      exact hdisj hjfl (hc ▸ hi)
    · intro hc
      by_cases hl1e : l1 = []
      · rw [hp0 hl1e] at hc
        exact (spine_mem s.pool hfr i hi).1 hc
      · have hpfl : p ∈ bks.flatten := mem_flatten_of_getD bks b p hbb
          (by rw [hgd]; exact List.mem_append_left _ (hpmem hl1e))
        exact hdisj hpfl (hc ▸ hi)
  have hlen12 : S.pool.length = s.pool.length := hSpoollen
  have hUL := spine_unlink hlen12
      j l2 l1 (s.hashtab.getD b 0) p hchain hndl hSnext hp0
      (fun hne => ⟨hplast hne, hSnextp hne⟩)
  refine ⟨⟨?_, ?_, ?_, ?_, ?_, ?_, ?_⟩, hperm⟩
  · rw [List.length_set, hlen, hStablen]
  · intro b2 hb2
    by_cases hbe : b2 = b
    · subst hbe
      rw [getD_set_self bks b2 _ _ hbb]
      by_cases hl1e : l1 = []
      · rw [hShead_b, if_pos hl1e]
        subst hl1e
        exact hUL.1 rfl
      · rw [hShead_b, if_neg hl1e]
        exact hUL.2 hl1e
    · rw [getD_set_ne bks b b2 _ _ (fun hc => hbe hc.symm), hShead_ne b2 hbe]
      refine spine_congr_next (by rw [hSpoollen]) ?_ (hbk b2 (by omega))
      intro i hi
      obtain ⟨hij, hip⟩ := hother b2 (by omega) hbe i hi
      exact hSnext i hip hij
  · rw [hSfree]
    refine ⟨rfl, hj0, by omega, ?_⟩
    rw [hSnextj]
    refine spine_congr_next (by rw [hSpoollen]) ?_ hfr
    intro i hi
    obtain ⟨hij, hip⟩ := hfrne i hi
    exact hSnext i hip hij
  · have h1 : (bks.flatten ++ fr).Perm
        ((j :: (bks.set b (l1 ++ l2)).flatten) ++ fr) := List.Perm.append_right fr hperm
    rw [List.cons_append] at h1
    have h3 : (j :: ((bks.set b (l1 ++ l2)).flatten ++ fr)).Nodup :=
      h1.nodup_iff.mp hnd
    have h2 : ((bks.set b (l1 ++ l2)).flatten ++ j :: fr).Perm
        (j :: ((bks.set b (l1 ++ l2)).flatten ++ fr)) := List.perm_middle
    exact h2.nodup_iff.mpr h3
  · intro b2 hb2 i hi
    rw [(hSfields i).1, hStablen]
    by_cases hbe : b2 = b
    · subst hbe
      rw [getD_set_self bks b2 _ _ hbb] at hi
      refine hcond b2 (by omega) i ?_
      rw [hgd]
      rcases List.mem_append.mp hi with h | h
      · exact List.mem_append_left _ h
      · exact List.mem_append_right _ (List.mem_cons_of_mem j h)
    · rw [getD_set_ne bks b b2 _ _ (fun hc => hbe hc.symm)] at hi
      exact hcond b2 (by omega) i hi
  · intro i hi
    have hifl : i ∈ bks.flatten :=
      hperm.mem_iff.mpr (List.mem_cons_of_mem j hi)
    rw [(hSfields i).1, (hSfields i).2.1, hSdims]
    exact hhash i hifl
  · have hmeq : ((bks.set b (l1 ++ l2)).flatten.map fun i => (snode S.pool i).idx)
        = (bks.set b (l1 ++ l2)).flatten.map fun i => (snode s.pool i).idx :=
      List.map_congr_left (fun i _ => (hSfields i).2.1)
    rw [hmeq]
    have hng : ((j :: (bks.set b (l1 ++ l2)).flatten).map
        fun i => (snode s.pool i).idx).Nodup := (hperm.map _).nodup_iff.mp hkeys
    rw [List.map_cons] at hng
    exact (List.nodup_cons.mp hng).2

theorem removeNode_spec (s : SparseHdr) {bks : List (List Nat)} {fr : List Nat}
    (hp : 0 < s.pool.length) (ht : 0 < s.hashtab.length)
    (hinv : StructInv s bks fr) {b j p : Nat} {l1 l2 : List Nat}
    (hb : b < s.hashtab.length)
    (hgd : bks.getD b [] = l1 ++ j :: l2)
    (hp0 : l1 = [] → p = 0)
    (hplast : l1 ≠ [] → l1.getLast? = some p) :
    StructInv (removeNode s b j p) (bks.set b (l1 ++ l2)) (j :: fr) ∧
    bks.flatten.Perm (j :: (bks.set b (l1 ++ l2)).flatten) ∧
    (removeNode s b j p).nodeCount = s.nodeCount - 1 ∧
    (removeNode s b j p).hashtab.length = s.hashtab.length ∧
    (removeNode s b j p).pool.length = s.pool.length ∧
    (removeNode s b j p).dims = s.dims ∧
    (removeNode s b j p).sizes = s.sizes ∧
    (removeNode s b j p).freeList = j ∧
    (∀ i, (snode (removeNode s b j p).pool i).hashval = (snode s.pool i).hashval ∧
        (snode (removeNode s b j p).pool i).idx = (snode s.pool i).idx ∧
        (snode (removeNode s b j p).pool i).value = (snode s.pool i).value) := by
  have hlen := hinv.1
  have hbb : b < bks.length := by omega
  have hndfl : bks.flatten.Nodup := (List.nodup_append.mp hinv.2.2.2.1).1
  have hchain := hinv.2.1 b hb
  rw [hgd] at hchain
  have hndl : (l1 ++ j :: l2).Nodup := by
    rw [← hgd]
    exact nodup_getD bks hndfl b
  have hjl : j ∈ l1 ++ j :: l2 := List.mem_append_right _ (List.mem_cons_self j l2)
  obtain ⟨hj0, hjlt⟩ := spine_mem s.pool hchain j hjl
  by_cases hl1e : l1 = []
  · have hpe := hp0 hl1e
    subst hpe
    have hrm : removeNode s b j 0 =
        { dims := s.dims, sizes := s.sizes,
          pool := s.pool.set j { snode s.pool j with next := s.freeList },
          hashtab := s.hashtab.set b (snode s.pool j).next,
          freeList := j, nodeCount := s.nodeCount - 1 } := rfl
    have hcore := unlink_structInv s hp ht hinv hb hgd hp0 hplast
      (removeNode s b j 0)
      (by rw [hrm]; simp)
      (fun i => by rw [hrm]; exact snode_fields_set_next s.pool j s.freeList i)
      (fun i hip hij => by
        rw [hrm]
        have : snode (s.pool.set j { snode s.pool j with next := s.freeList }) i
            = snode s.pool i := snode_set_ne s.pool j i _ (fun hc => hij hc.symm)
        rw [this])
      (by rw [hrm]
          have : snode (s.pool.set j { snode s.pool j with next := s.freeList }) j
              = { snode s.pool j with next := s.freeList } :=
            snode_set_self s.pool j _ hjlt
          rw [this])
      (fun hne => absurd hl1e hne)
      (by rw [hrm]; simp)
      (fun b2 hbe => by
        rw [hrm]
        exact getD_set_ne s.hashtab b b2 _ _ (fun hc => hbe hc.symm))
      (by rw [hrm, if_pos hl1e]
          exact getD_set_self s.hashtab b _ _ (by omega))
      (by rw [hrm])
      (by rw [hrm])
    refine ⟨hcore.1, hcore.2, by rw [hrm], by rw [hrm]; simp, by rw [hrm]; simp,
      by rw [hrm], by rw [hrm], by rw [hrm],
      fun i => by rw [hrm]; exact snode_fields_set_next s.pool j s.freeList i⟩
  · have hpmem : p ∈ l1 := by
      have hgl := hplast hl1e
      rw [List.getLast?_eq_getLast _ hl1e] at hgl
      have hm := List.getLast_mem hl1e
      rw [Option.some.inj hgl] at hm
      exact hm
    have hpl : p ∈ l1 ++ j :: l2 := List.mem_append_left _ hpmem
    obtain ⟨hpne, hplt⟩ := spine_mem s.pool hchain p hpl
    have hpj : p ≠ j := by
      intro hc
      have hdisj := (List.nodup_append.mp hndl).2.2
      exact hdisj hpmem (hc ▸ List.mem_cons_self j l2)
    have hrm : removeNode s b j p =
        { dims := s.dims, sizes := s.sizes,
          pool := (s.pool.set p { snode s.pool p with
              next := (snode s.pool j).next }).set j
            { snode (s.pool.set p { snode s.pool p with
                next := (snode s.pool j).next }) j with next := s.freeList },
          hashtab := s.hashtab, freeList := j, nodeCount := s.nodeCount - 1 } := by
      unfold removeNode
      dsimp only
      rw [if_neg hpne]
    have hfields : ∀ i,
        (snode (removeNode s b j p).pool i).hashval = (snode s.pool i).hashval ∧
        (snode (removeNode s b j p).pool i).idx = (snode s.pool i).idx ∧
        (snode (removeNode s b j p).pool i).value = (snode s.pool i).value := by
      intro i
      rw [hrm]
      have h1 := snode_fields_set_next
        (s.pool.set p { snode s.pool p with next := (snode s.pool j).next }) j
        s.freeList i
      have h2 := snode_fields_set_next s.pool p (snode s.pool j).next i
      exact ⟨h1.1.trans h2.1, h1.2.1.trans h2.2.1, h1.2.2.trans h2.2.2⟩
    have hcore := unlink_structInv s hp ht hinv hb hgd hp0 hplast
      (removeNode s b j p)
      (by rw [hrm]; simp)
      hfields
      (fun i hip hij => by
        rw [hrm]
        have ha : snode ((s.pool.set p { snode s.pool p with
            next := (snode s.pool j).next }).set j
              { snode (s.pool.set p { snode s.pool p with
                  next := (snode s.pool j).next }) j with next := s.freeList }) i
            = snode (s.pool.set p { snode s.pool p with
                next := (snode s.pool j).next }) i :=
          snode_set_ne _ j i _ (fun hc => hij hc.symm)
        have hb2 : snode (s.pool.set p { snode s.pool p with
            next := (snode s.pool j).next }) i = snode s.pool i :=
          snode_set_ne _ p i _ (fun hc => hip hc.symm)
        rw [ha, hb2])
      (by rw [hrm]
          have ha : snode ((s.pool.set p { snode s.pool p with
              next := (snode s.pool j).next }).set j
                { snode (s.pool.set p { snode s.pool p with
                    next := (snode s.pool j).next }) j with next := s.freeList }) j
              = { snode (s.pool.set p { snode s.pool p with
                  next := (snode s.pool j).next }) j with next := s.freeList } :=
            snode_set_self _ j _ (by simp only [List.length_set]; omega)
          rw [ha])
      (fun _ => by
        rw [hrm]
        have ha : snode ((s.pool.set p { snode s.pool p with
            next := (snode s.pool j).next }).set j
              { snode (s.pool.set p { snode s.pool p with
                  next := (snode s.pool j).next }) j with next := s.freeList }) p
            = snode (s.pool.set p { snode s.pool p with
                next := (snode s.pool j).next }) p :=
          snode_set_ne _ j p _ (fun hc => hpj hc.symm)
        have hb2 : snode (s.pool.set p { snode s.pool p with
            next := (snode s.pool j).next }) p
            = { snode s.pool p with next := (snode s.pool j).next } :=
          snode_set_self _ p _ hplt
        rw [ha, hb2])
      (by rw [hrm])
      (fun b2 _ => by rw [hrm])
      (by rw [hrm, if_neg hl1e])
      (by rw [hrm])
      (by rw [hrm])
    exact ⟨hcore.1, hcore.2, by rw [hrm], by rw [hrm], by rw [hrm]; simp,
      by rw [hrm], by rw [hrm], by rw [hrm], hfields⟩

theorem serase_miss (s : SparseHdr) {bks : List (List Nat)} {fr : List Nat}
    (hp : 0 < s.pool.length) (ht : 0 < s.hashtab.length)
    (hinv : StructInv s bks fr) (k : List Nat) (hmiss : sfind s k = none) :
    serase s k = s := by
  have hndfl : bks.flatten.Nodup := (List.nodup_append.mp hinv.2.2.2.1).1
  have hb : schash k % s.hashtab.length < s.hashtab.length := Nat.mod_lt _ ht
  have hsp := hinv.2.1 _ hb
  have hndb := nodup_getD bks hndfl (schash k % s.hashtab.length)
  have hfuel := spine_length_le s.pool hp hsp hndb
  have hall := (findInChain_none_iff s.pool (schash k) k hsp hfuel).mp
    (by rw [← sfind_eq_findInChain s k ht]; exact hmiss)
  have hfp := findPred_none s.pool (schash k) k _ s.pool.length 0 _ hsp hfuel hall
  unfold serase
  rw [if_neg (by omega)]
  dsimp only
  rw [hfp]

theorem serase_found_spec (s : SparseHdr) {bks : List (List Nat)} {fr : List Nat}
    (hp : 0 < s.pool.length) (ht : 0 < s.hashtab.length)
    (hinv : StructInv s bks fr) (k : List Nat) {j : Nat}
    (hj : sfind s k = some j) :
    ∃ bks2,
      StructInv (serase s k) bks2 (j :: fr) ∧
      bks.flatten.Perm (j :: bks2.flatten) ∧
      (serase s k).nodeCount = s.nodeCount - 1 ∧
      (serase s k).hashtab.length = s.hashtab.length ∧
      (serase s k).pool.length = s.pool.length ∧
      (serase s k).dims = s.dims ∧
      (serase s k).sizes = s.sizes ∧
      (∀ i, (snode (serase s k).pool i).hashval = (snode s.pool i).hashval ∧
          (snode (serase s k).pool i).idx = (snode s.pool i).idx ∧
          (snode (serase s k).pool i).value = (snode s.pool i).value) := by
  obtain ⟨hjfl, hjh, hji⟩ := sfind_some_spec s hp ht hinv k hj
  have hlen := hinv.1
  have hndfl : bks.flatten.Nodup := (List.nodup_append.mp hinv.2.2.2.1).1
  have hb : schash k % s.hashtab.length < s.hashtab.length := Nat.mod_lt _ ht
  obtain ⟨b2, hb2, hjb2⟩ := flatten_mem_getD bks j hjfl
  have hb2eq : b2 = schash k % s.hashtab.length := by
    have := hinv.2.2.2.2.1 b2 (by omega) j hjb2
    rw [hjh] at this
    omega
  subst hb2eq
  have hex : ∃ x ∈ bks.getD (schash k % s.hashtab.length) [],
      (snode s.pool x).hashval = schash k ∧ (snode s.pool x).idx = k :=
    ⟨j, hjb2, hjh, hji⟩
  obtain ⟨l1, j0, l2, heq, hl1, hPj0⟩ := exists_first_split _ _ hex
  have hj0fl : j0 ∈ bks.flatten :=
    mem_flatten_of_getD bks (schash k % s.hashtab.length) j0 (by omega)
      (by rw [heq]; exact List.mem_append_right _ (List.mem_cons_self j0 l2))
  have hj0j : j0 = j := flatten_idx_inj s hinv j0 hj0fl j hjfl (by rw [hPj0.2, hji])
  rw [hj0j] at heq hPj0
  have hchain := hinv.2.1 _ hb
  rw [heq] at hchain
  have hndl : (l1 ++ j :: l2).Nodup := by
    rw [← heq]
    exact nodup_getD bks hndfl _
  have hfuel : (l1 ++ j :: l2).length ≤ s.pool.length :=
    spine_length_le s.pool hp hchain hndl
  have hfp := findPred_found s.pool (schash k) k l1 j l2 s.pool.length 0
      (s.hashtab.getD (schash k % s.hashtab.length) 0) hchain hfuel hl1 hPj0
  have hser : serase s k
      = removeNode s (schash k % s.hashtab.length) j (l1.getLastD 0) := by
    unfold serase
    rw [if_neg (by omega)]
    dsimp only
    rw [hfp]
  have hpz : l1 = [] → l1.getLastD 0 = 0 := by
    intro hc
    rw [hc]
    rfl
  have hplast : l1 ≠ [] → l1.getLast? = some (l1.getLastD 0) := by
    intro hne
    rw [List.getLast?_eq_getLast _ hne]
    congr 1
    rw [List.getLastD_eq_getLast?, List.getLast?_eq_getLast _ hne]
    rfl
  obtain ⟨hS, hPerm, hnc, htl, hpl, hd, hsz, hfl, hfields⟩ :=
    removeNode_spec s hp ht hinv hb heq hpz hplast
  rw [hser]
  exact ⟨bks.set (schash k % s.hashtab.length) (l1 ++ l2), hS, hPerm, hnc, htl,
    hpl, hd, hsz, hfields⟩

/-! ## Sparse matrix: full-invariant preservation -/

theorem screate_SInvP {dims : Nat} {sizes : List Nat} {s0 : SparseHdr}
    (h : screate dims sizes = some s0) :
    SInvP s0 ∧ s0.dims = dims ∧ s0.sizes = sizes ∧ s0.nodeCount = 0 ∧
    skeys s0 = [] := by
  unfold screate at h
  by_cases hc : 1 ≤ dims ∧ dims ≤ MAX_DIM ∧ sizes.length = dims
  · rw [if_pos hc] at h
    obtain ⟨hd, hm, hl⟩ := hc
    injection h with h
    subst h
    have hinv : StructInv
        { dims := dims, sizes := sizes, pool := [default],
          hashtab := List.replicate 8 0, freeList := 0, nodeCount := 0 }
        (List.replicate 8 []) [] := by
      refine ⟨by simp, ?_, rfl, ?_, ?_, ?_, ?_⟩
      · intro b hb
        rw [getD_replicate, getD_replicate]
        rfl
      · rw [flatten_replicate_nil]
        simp
      · intro b hb i hi
        rw [getD_replicate] at hi
        cases hi
      · intro i hi
        rw [flatten_replicate_nil] at hi
        cases hi
      · rw [flatten_replicate_nil]
        simp
    refine ⟨⟨by simp, by simp, ⟨3, by simp⟩, by simp, hd, hm, hl,
      List.replicate 8 [], [], hinv, by rfl⟩,
      rfl, rfl, rfl, ?_⟩
    rw [structInv_skeys _ (by simp) hinv, flatten_replicate_nil]
    rfl
  · rw [if_neg hc] at h
    exact Option.noConfusion h

theorem perm_erase_ambient (k : List Nat) :
    ∀ {l1 l2 : List (List Nat)}, l1.Perm l2 → (l1.erase k).Perm (l2.erase k) := by
  intro l1 l2 h
  induction h with
  | nil => exact List.Perm.refl _
  | cons x h2 ih =>
      by_cases hx : x = k
      · subst hx
        rw [List.erase_cons_head, List.erase_cons_head]
        exact h2
      · rw [List.erase_cons_tail (by simpa using hx),
          List.erase_cons_tail (by simpa using hx)]
        exact List.Perm.cons x ih
  | swap x y l =>
      by_cases hy : y = k
      · rw [hy, List.erase_cons_head]
        by_cases hx : x = k
        · rw [hx, List.erase_cons_head]
        · rw [List.erase_cons_tail (by simpa using hx), List.erase_cons_head]
      · rw [List.erase_cons_tail (by simpa using hy)]
        by_cases hx : x = k
        · rw [hx, List.erase_cons_head, List.erase_cons_head]
        · rw [List.erase_cons_tail (by simpa using hx),
            List.erase_cons_tail (by simpa using hx),
            List.erase_cons_tail (by simpa using hy)]
          exact List.Perm.swap _ _ _
  | trans h1 h2 ih1 ih2 => exact ih1.trans ih2

theorem hashGrow_true_iff (c len : Nat) :
    hashGrow c len = true ↔ len * 2 < c * 3 := by
  simp [hashGrow]

theorem srefSet_SInvP (s : SparseHdr) (k : List Nat) (v : Int)
    (hS : SInvP s) (hkd : k.length = s.dims) :
    SInvP (srefSet s k v) ∧ (srefSet s k v).dims = s.dims ∧
    (srefSet s k v).sizes = s.sizes ∧
    (skeys (srefSet s k v)).Perm (if k ∈ skeys s then skeys s else k :: skeys s) ∧
    svalue (srefSet s k v) k = v ∧
    nzcount (srefSet s k v)
      = (if k ∈ skeys s then nzcount s else nzcount s + 1) := by
  obtain ⟨hp1, ht8, ⟨m, hpow⟩, hload, hd1, hdM, hszl, bks, fr, hinv, hcnt⟩ := hS
  have hp : 0 < s.pool.length := hp1
  have ht : 0 < s.hashtab.length := by omega
  by_cases hk : k ∈ skeys s
  · have hfind : sfind s k ≠ none := fun hc => (sfind_none_iff s hp ht hinv k).mp hc hk
    obtain ⟨j, hj⟩ := Option.ne_none_iff_exists.mp hfind
    obtain ⟨hSI, htab, hplen, hfl, hnc, hdims, hsizes, hfind2, hsval, hidx, hvals⟩ :=
      srefSet_found_spec s hp ht hinv k v hj.symm
    rw [if_pos hk, if_pos hk]
    have hp2 : 0 < (srefSet s k v).pool.length := by omega
    refine ⟨⟨by omega, by rw [htab]; omega, ⟨m, by rw [htab]; exact hpow⟩,
      by rw [htab, hnc]; omega, by omega, by omega, by rw [hsizes, hdims]; exact hszl,
      bks, fr, hSI, by rw [hnc, hcnt]⟩, hdims, hsizes, ?_, hsval, by
        show (srefSet s k v).nodeCount = s.nodeCount
        omega⟩
    have hkeq : skeys (srefSet s k v) = skeys s := by
      rw [structInv_skeys _ hp2 hSI, structInv_skeys s hp hinv]
      exact List.map_congr_left (fun i _ => hidx i)
    rw [hkeq]
  · have hfind : sfind s k = none := (sfind_none_iff s hp ht hinv k).mpr hk
    obtain ⟨bks4, fr4, hSI, hflen, hnc, hdims, hsizes, hppos, hsval, hkperm, hpair,
      hfree, hgrow, hgt, hgf⟩ := srefSet_miss_spec s hp ht hinv k v hkd hfind
    rw [if_neg hk, if_neg hk]
    have htab2 : 8 ≤ (srefSet s k v).hashtab.length ∧
        (∃ m2, (srefSet s k v).hashtab.length = 2 ^ m2) ∧
        (srefSet s k v).nodeCount * 3 ≤ 2 * (srefSet s k v).hashtab.length := by
      rcases Bool.eq_false_or_eq_true (hashGrow (s.nodeCount + 1) s.hashtab.length)
        with hg | hg
      · have hlen2 := hgt hg
        have harith := (hashGrow_true_iff _ _).mp hg
        exact ⟨by omega, ⟨m + 1, by rw [hlen2, hpow, pow_succ]; ring⟩,
          by rw [hlen2, hnc]; omega⟩
      · have hlen2 := hgf hg
        have harith : ¬(s.hashtab.length * 2 < (s.nodeCount + 1) * 3) := by
          intro hlt
          rw [← hashGrow_true_iff] at hlt
          rw [hg] at hlt
          cases hlt
        exact ⟨by omega, ⟨m, by rw [hlen2]; exact hpow⟩, by rw [hlen2, hnc]; omega⟩
    refine ⟨⟨hppos, htab2.1, htab2.2.1, htab2.2.2, by omega, by omega,
      by rw [hsizes, hdims]; exact hszl, bks4, fr4, hSI,
      by rw [hnc, hcnt]; omega⟩, hdims, hsizes, ?_, hsval, by
        show (srefSet s k v).nodeCount = s.nodeCount + 1
        omega⟩
    rw [structInv_skeys _ hppos hSI]
    refine hkperm.trans ?_
    rw [structInv_skeys s hp hinv]

theorem serase_SInvP (s : SparseHdr) (k : List Nat) (hS : SInvP s) :
    SInvP (serase s k) ∧ (serase s k).dims = s.dims ∧
    (serase s k).sizes = s.sizes ∧
    (skeys (serase s k)).Perm ((skeys s).erase k) ∧
    sfind (serase s k) k = none ∧ svalue (serase s k) k = 0 ∧
    nzcount (serase s k)
      = (if k ∈ skeys s then nzcount s - 1 else nzcount s) := by
  obtain ⟨hp1, ht8, ⟨m, hpow⟩, hload, hd1, hdM, hszl, bks, fr, hinv, hcnt⟩ := hS
  have hp : 0 < s.pool.length := hp1
  have ht : 0 < s.hashtab.length := by omega
  cases hfind : sfind s k with
  | none =>
      have hser := serase_miss s hp ht hinv k hfind
      have hknot : k ∉ skeys s := (sfind_none_iff s hp ht hinv k).mp hfind
      rw [hser, if_neg hknot]
      refine ⟨⟨hp1, ht8, ⟨m, hpow⟩, hload, hd1, hdM, hszl, bks, fr, hinv, hcnt⟩,
        rfl, rfl, ?_, hfind, ?_, rfl⟩
      · rw [List.erase_of_not_mem hknot]
      · rw [svalue, hfind]
  | some j =>
      obtain ⟨hjfl, hjh, hji⟩ := sfind_some_spec s hp ht hinv k hfind
      have hkin : k ∈ skeys s := by
        rw [structInv_skeys s hp hinv]
        exact List.mem_map.mpr ⟨j, hjfl, hji⟩
      obtain ⟨bks2, hSI, hPerm, hnc, htl, hpl, hd, hsz, hfields⟩ :=
        serase_found_spec s hp ht hinv k hfind
      have hp2 : 0 < (serase s k).pool.length := by omega
      have hndfl : bks.flatten.Nodup := (List.nodup_append.mp hinv.2.2.2.1).1
      have hjnot2 : j ∉ bks2.flatten := by
        have hnd2 : (j :: bks2.flatten).Nodup := hPerm.nodup_iff.mp hndfl
        exact (List.nodup_cons.mp hnd2).1
      have hkeq : skeys (serase s k)
          = bks2.flatten.map fun i => (snode s.pool i).idx := by
        rw [structInv_skeys _ hp2 hSI]
        exact List.map_congr_left (fun i _ => (hfields i).2.1)
      have hsperm : (skeys s).Perm
          (k :: bks2.flatten.map fun i => (snode s.pool i).idx) := by
        rw [structInv_skeys s hp hinv]
        refine (hPerm.map _).trans ?_
        rw [List.map_cons, hji]
      have hknot2 : k ∉ skeys (serase s k) := by
        rw [hkeq]
        intro hc
        obtain ⟨i, hi2, hik⟩ := List.mem_map.mp hc
        have hifl : i ∈ bks.flatten :=
          hPerm.mem_iff.mpr (List.mem_cons_of_mem j hi2)
        have hij : i = j := flatten_idx_inj s hinv i hifl j hjfl (by rw [hik, hji])
        exact hjnot2 (hij ▸ hi2)
      have hfind2 : sfind (serase s k) k = none :=
        (sfind_none_iff (serase s k) hp2 (by omega) hSI k).mpr hknot2
      have hflen : bks.flatten.length = bks2.flatten.length + 1 := by
        rw [hPerm.length_eq, List.length_cons]
      refine ⟨⟨by omega, by omega, ⟨m, by rw [htl]; exact hpow⟩, by omega, by omega,
        by omega, by rw [hsz, hd]; exact hszl, bks2, j :: fr, hSI, by omega⟩,
        hd, hsz, ?_, hfind2, ?_, ?_⟩
      · rw [hkeq]
        have h2 := perm_erase_ambient k hsperm
        rw [List.erase_cons_head] at h2
        exact h2.symm
      · rw [svalue, hfind2]
      · rw [if_pos hkin]
        show (serase s k).nodeCount = s.nodeCount - 1
        omega

theorem runOps_spec :
    ∀ (ops : List SOp) (s : SparseHdr) (ks : List (List Nat)),
      SInvP s → ks.Perm (skeys s) → opsWF s.dims ops →
      SInvP (runOps s ops) ∧ (runOps s ops).dims = s.dims ∧
      (keysModel ks ops).Perm (skeys (runOps s ops)) := by
  intro ops
  induction ops with
  | nil =>
      intro s ks hS hks _
      exact ⟨hS, rfl, hks⟩
  | cons op rest ih =>
      intro s ks hS hks hwf
      have hwfop : (SOp.key op).length = s.dims := hwf op (List.mem_cons_self op rest)
      have hwfrest : opsWF s.dims rest :=
        fun o ho => hwf o (List.mem_cons_of_mem _ ho)
      cases op with
      | put k v =>
          obtain ⟨hS2, hd2, _, hkperm2, _, _⟩ := srefSet_SInvP s k v hS hwfop
          have hrun : runOps s (.put k v :: rest) = runOps (srefSet s k v) rest := rfl
          have hkm : keysModel ks (.put k v :: rest)
              = keysModel (if k ∈ ks then ks else k :: ks) rest := rfl
          rw [hrun, hkm]
          have hks2 : (if k ∈ ks then ks else k :: ks).Perm
              (skeys (srefSet s k v)) := by
            by_cases hkk : k ∈ ks
            · rw [if_pos hkk]
              have hkk2 : k ∈ skeys s := hks.mem_iff.mp hkk
              rw [if_pos hkk2] at hkperm2
              exact (hks.trans hkperm2.symm)
            · rw [if_neg hkk]
              have hkk2 : k ∉ skeys s := fun hc => hkk (hks.mem_iff.mpr hc)
              rw [if_neg hkk2] at hkperm2
              exact ((List.Perm.cons k hks).trans hkperm2.symm)
          have hrest := ih (srefSet s k v) _ hS2 hks2 (by rw [hd2]; exact hwfrest)
          exact ⟨hrest.1, by rw [hrest.2.1, hd2], hrest.2.2⟩
      | del k =>
          obtain ⟨hS2, hd2, _, hkperm2, _, _, _⟩ := serase_SInvP s k hS
          have hrun : runOps s (.del k :: rest) = runOps (serase s k) rest := rfl
          have hkm : keysModel ks (.del k :: rest)
              = keysModel (ks.erase k) rest := rfl
          rw [hrun, hkm]
          have hks2 : (ks.erase k).Perm (skeys (serase s k)) :=
            (perm_erase_ambient k hks).trans hkperm2.symm
          have hrest := ih (serase s k) _ hS2 hks2 (by rw [hd2]; exact hwfrest)
          exact ⟨hrest.1, by rw [hrest.2.1, hd2], hrest.2.2⟩

theorem SInvP_nzcount (s : SparseHdr) (hS : SInvP s) :
    nzcount s = (skeys s).length := by
  obtain ⟨hp1, ht8, hpow, hload, hd1, hdM, hszl, bks, fr, hinv, hcnt⟩ := hS
  rw [structInv_skeys s hp1 hinv, List.length_map]
  exact hcnt

/-! ## Claims C3, C4, C8, C10 -/

/-- C3: on a well-formed sparse matrix, `ptr(idx, createMissing = false)`
(modelled as `sfind`) returns the null sentinel `none` exactly when the
coordinate tuple is absent, and otherwise the slot of the element with
exactly that tuple; `ptr(idx, createMissing = true)` (modelled as
`sptrCreate`) leaves a present element in place, and for a missing tuple
allocates a node — reusing the free-list head when one is available, else
growing the pool by one slot — zero-initializes its value, stores the
coordinates, links it at the head of its hash bucket and increments
`nzcount`; consequently the forcing accessor always ends with a valid,
non-null slot for the tuple. -/
theorem claim_C3_sparse_ptr (s : SparseHdr) (k : List Nat)
    (hS : SInvP s) (hkd : k.length = s.dims) :
    (sfind s k = none ↔ k ∉ skeys s) ∧
    (∀ j, sfind s k = some j → j ≠ 0 ∧ (snode s.pool j).idx = k ∧
        sptrCreate s k = (s, j)) ∧
    (sfind s k = none →
      (sptrCreate s k).2 ≠ 0 ∧
      (snode (sptrCreate s k).1.pool (sptrCreate s k).2).idx = k ∧
      (snode (sptrCreate s k).1.pool (sptrCreate s k).2).value = 0 ∧
      (sptrCreate s k).1.hashtab.getD
        (schash k % (sptrCreate s k).1.hashtab.length) 0 = (sptrCreate s k).2 ∧
      nzcount (sptrCreate s k).1 = nzcount s + 1 ∧
      (s.freeList ≠ 0 → (sptrCreate s k).2 = s.freeList ∧
          (sptrCreate s k).1.pool.length = s.pool.length) ∧
      (s.freeList = 0 → (sptrCreate s k).2 = s.pool.length ∧
          (sptrCreate s k).1.pool.length = s.pool.length + 1)) ∧
    (sfind (sptrCreate s k).1 k = some (sptrCreate s k).2 ∧
      (sptrCreate s k).2 ≠ 0) := by
  obtain ⟨hp1, ht8, hpw, hload, hd1, hdM, hszl, bks, fr, hinv, hcnt⟩ := hS
  have hp : 0 < s.pool.length := hp1
  have ht : 0 < s.hashtab.length := by omega
  refine ⟨sfind_none_iff s hp ht hinv k, ?_, ?_, ?_⟩
  · intro j hj
    obtain ⟨hjm, hjh, hji⟩ := sfind_some_spec s hp ht hinv k hj
    exact ⟨(structInv_flatten_bounds s hinv j hjm).1, hji, sptrCreate_eq_found s k hj⟩
  · intro hmiss
    have hknot : k ∉ bks.flatten.map fun i => (snode s.pool i).idx := by
      have h2 := (sfind_none_iff s hp ht hinv k).mp hmiss
      rw [structInv_skeys s hp hinv] at h2
      exact h2
    obtain ⟨bks4, fr4, hinv4, hflen4, hnc4, hne04, hlt4, hidx4, hhv4, hval4, hfind4,
        hhead4, hd4, hsz4, hkperm4, hpair4, hfree4, hgrow4, hgt4, hgf4⟩ :=
      newNode_spec s hp ht hinv k hkd hknot
    rw [sptrCreate_eq_newNode s k hmiss]
    exact ⟨hne04, hidx4, hval4, hhead4, hnc4, hfree4, hgrow4⟩
  · cases hm : sfind s k with
    | none =>
        have hknot : k ∉ bks.flatten.map fun i => (snode s.pool i).idx := by
          have h2 := (sfind_none_iff s hp ht hinv k).mp hm
          rw [structInv_skeys s hp hinv] at h2
          exact h2
        obtain ⟨bks4, fr4, hinv4, hflen4, hnc4, hne04, hlt4, hidx4, hhv4, hval4,
            hfind4, hhead4, hd4, hsz4, hkperm4, hpair4, hfree4, hgrow4, hgt4, hgf4⟩ :=
          newNode_spec s hp ht hinv k hkd hknot
        rw [sptrCreate_eq_newNode s k hm]
        exact ⟨hfind4, hne04⟩
    | some j =>
        obtain ⟨hjm, hjh, hji⟩ := sfind_some_spec s hp ht hinv k hm
        rw [sptrCreate_eq_found s k hm]
        exact ⟨hm, (structInv_flatten_bounds s hinv j hjm).1⟩

/-- C4: starting from a created sparse matrix and running any trace of
`ref(k) = v` / `erase(k)` operations with well-formed keys: a store through
`ref` followed by `value` on the same tuple reads the stored value back; an
`erase` makes a subsequent `find` return the null sentinel and `value`
return the zero sentinel; and `nzcount` always equals the number of
distinct keys inserted and not subsequently erased (the length of the
duplicate-free bookkeeping list). -/
theorem claim_C4_sparse_roundtrip (dims : Nat) (sizes : List Nat) (s0 : SparseHdr)
    (h0 : screate dims sizes = some s0) (ops : List SOp) (hwf : opsWF dims ops) :
    (∀ k v, k.length = dims → svalue (srefSet (runOps s0 ops) k v) k = v) ∧
    (∀ k, sfind (serase (runOps s0 ops) k) k = none ∧
        svalue (serase (runOps s0 ops) k) k = 0) ∧
    nzcount (runOps s0 ops) = (keysModel [] ops).length := by
  obtain ⟨hS0, hd0, hsz0, hn0, hk0⟩ := screate_SInvP h0
  obtain ⟨hSr, hdr, hkr⟩ := runOps_spec ops s0 []
    (by exact hS0) (by rw [hk0]) (by rw [hd0]; exact hwf)
  refine ⟨?_, ?_, ?_⟩
  · intro k v hkdim
    exact (srefSet_SInvP (runOps s0 ops) k v hSr
      (by rw [hdr, hd0]; exact hkdim)).2.2.2.2.1
  · intro k
    have h := serase_SInvP (runOps s0 ops) k hSr
    exact ⟨h.2.2.2.2.1, h.2.2.2.2.2.1⟩
  · rw [SInvP_nzcount _ hSr]
    exact hkr.length_eq.symm

/-- C8: when inserting a fresh key pushes the load factor over the `2/3`
threshold, the hash table doubles to the next power-of-two size (restoring
the target load factor), every previously inserted key is still present
with exactly the same value after the rehash, the new element reads back,
and `nzcount` is incremented. -/
theorem claim_C8_rehash (s : SparseHdr) (k : List Nat) (v : Int)
    (hS : SInvP s) (hkd : k.length = s.dims) (hfresh : k ∉ skeys s)
    (hload : hashGrow (s.nodeCount + 1) s.hashtab.length = true) :
    (srefSet s k v).hashtab.length = 2 * s.hashtab.length ∧
    (∃ m2, (srefSet s k v).hashtab.length = 2 ^ m2) ∧
    nzcount (srefSet s k v) * 3 ≤ 2 * (srefSet s k v).hashtab.length ∧
    (∀ k2 ∈ skeys s, sfind (srefSet s k v) k2 ≠ none ∧
        svalue (srefSet s k v) k2 = svalue s k2) ∧
    svalue (srefSet s k v) k = v ∧
    nzcount (srefSet s k v) = nzcount s + 1 := by
  obtain ⟨hp1, ht8, ⟨m, hpow⟩, hloadn, hd1, hdM, hszl, bks, fr, hinv, hcnt⟩ := hS
  have hp : 0 < s.pool.length := hp1
  have ht : 0 < s.hashtab.length := by omega
  have hfind : sfind s k = none := (sfind_none_iff s hp ht hinv k).mpr hfresh
  obtain ⟨bks4, fr4, hSI, hflen, hnc, hdims, hsizes, hppos, hsval, hkperm, hpair,
    hfree, hgrow, hgt, hgf⟩ := srefSet_miss_spec s hp ht hinv k v hkd hfind
  have hlen2 := hgt hload
  have ht2 : 0 < (srefSet s k v).hashtab.length := by omega
  refine ⟨hlen2, ⟨m + 1, by rw [hlen2, hpow, pow_succ]; ring⟩, ?_, ?_, hsval, by
    show (srefSet s k v).nodeCount = s.nodeCount + 1
    omega⟩
  · have hnc2 : (srefSet s k v).nodeCount = s.nodeCount + 1 := hnc
    show (srefSet s k v).nodeCount * 3 ≤ 2 * (srefSet s k v).hashtab.length
    omega
  · intro k2 hk2
    rw [structInv_skeys s hp hinv] at hk2
    obtain ⟨j, hjfl, hik⟩ := List.mem_map.mp hk2
    obtain ⟨hj4, hidxj, hvalj⟩ := hpair j hjfl
    have hold := sfind_of_mem s hp ht hinv hjfl
    have hnew := sfind_of_mem (srefSet s k v) hppos ht2 hSI hj4
    rw [hidxj, hik] at hnew
    rw [hik] at hold
    constructor
    · rw [hnew.1]
      exact fun hc => Option.noConfusion hc
    · rw [hnew.2, hold.2, hvalj]

/-- C10: `MAX_DIM = 32` bounds the dimensionality of every sparse matrix:
`create` rejects any dimensionality above 32 (and accepts only 1..32), a
created header and every header satisfying the invariant has `dims ≤ 32`,
and every stored coordinate tuple has exactly the header's dimensionality,
hence at most 32 coordinates. -/
theorem claim_C10_max_dim :
    MAX_DIM = 32 ∧
    (∀ dims sizes, MAX_DIM < dims → screate dims sizes = none) ∧
    (∀ dims sizes s0, screate dims sizes = some s0 →
        1 ≤ s0.dims ∧ s0.dims ≤ MAX_DIM ∧ SInvP s0) ∧
    (∀ s, SInvP s → s.dims ≤ MAX_DIM ∧
        ∀ kk ∈ skeys s, kk.length = s.dims ∧ kk.length ≤ MAX_DIM) := by
  refine ⟨rfl, ?_, ?_, ?_⟩
  · intro dims sizes hgt
    unfold screate
    rw [if_neg (by omega)]
  · intro dims sizes s0 h0
    have h := screate_SInvP h0
    exact ⟨h.1.2.2.2.2.1, h.1.2.2.2.2.2.1, h.1⟩
  · intro s hS
    obtain ⟨hp1, ht8, hpow, hloadn, hd1, hdM, hszl, bks, fr, hinv, hcnt⟩ := hS
    refine ⟨hdM, ?_⟩
    intro kk hkk
    rw [structInv_skeys s hp1 hinv] at hkk
    obtain ⟨i, hifl, hik⟩ := List.mem_map.mp hkk
    have hdim := (hinv.2.2.2.2.2.1 i hifl).2
    rw [← hik]
    exact ⟨hdim, by omega⟩

/-! ## Witnesses for C3, C4, C8, C10 -/

theorem claim_C3_witness :
    (sfind sampleSparse0 [4] = none ↔ [4] ∉ skeys sampleSparse0) ∧
    nzcount (sptrCreate sampleSparse0 [4]).1 = nzcount sampleSparse0 + 1 ∧
    sfind (sptrCreate sampleSparse0 [4]).1 [4]
      = some (sptrCreate sampleSparse0 [4]).2 ∧
    (sptrCreate sampleSparse0 [4]).2 ≠ 0 := by
  have hS : SInvP sampleSparse0 := by
    refine ⟨by decide, by decide, ⟨3, by decide⟩, by decide, by decide, by decide,
      by decide, List.replicate 8 [], [], ?_, by decide⟩
    unfold StructInv
    decide
  have h := claim_C3_sparse_ptr sampleSparse0 [4] hS rfl
  exact ⟨h.1, (h.2.2.1 (by decide)).2.2.2.2.1, h.2.2.2.1, h.2.2.2.2⟩

theorem claim_C4_witness :
    opsWF 1 sampleOps ∧
    nzcount (runOps sampleSparse0 sampleOps) = (keysModel [] sampleOps).length ∧
    svalue (srefSet (runOps sampleSparse0 sampleOps) [5] 42) [5] = 42 ∧
    sfind (serase (runOps sampleSparse0 sampleOps) [4]) [4] = none := by
  have h := claim_C4_sparse_roundtrip 1 [10] sampleSparse0 rfl sampleOps
    (by unfold opsWF; decide)
  exact ⟨by unfold opsWF; decide, h.2.2, h.1 [5] 42 rfl, (h.2.1 [4]).1⟩

theorem claim_C8_witness :
    hashGrow (sampleSparse5.nodeCount + 1) sampleSparse5.hashtab.length = true ∧
    (srefSet sampleSparse5 [7] 9).hashtab.length = 16 ∧
    svalue (srefSet sampleSparse5 [7] 9) [7] = 9 ∧
    svalue (srefSet sampleSparse5 [7] 9) [2] = svalue sampleSparse5 [2] ∧
    nzcount (srefSet sampleSparse5 [7] 9) = 6 := by
  have hS : SInvP sampleSparse5 := by
    refine ⟨by decide, by decide, ⟨3, by decide⟩, by decide, by decide, by decide,
      by decide, [[1], [2], [3], [4], [5], [], [], []], [], ?_, by decide⟩
    unfold StructInv
    decide
  have h := claim_C8_rehash sampleSparse5 [7] 9 hS rfl (by decide) (by decide)
  refine ⟨by decide, ?_, h.2.2.2.2.1, ?_, ?_⟩
  · rw [h.1]
    decide
  · exact (h.2.2.2.1 [2] (by decide)).2
  · rw [h.2.2.2.2.2]
    decide

theorem claim_C10_witness :
    MAX_DIM = 32 ∧
    screate 33 (List.replicate 33 2) = none ∧
    ∃ s0, screate 2 [3, 4] = some s0 ∧ s0.dims ≤ 32 := by
  have h := claim_C10_max_dim
  refine ⟨h.1, h.2.1 33 (List.replicate 33 2) (by decide), ?_⟩
  exact ⟨_, rfl, (h.2.2.1 2 [3, 4] _ rfl).2.1⟩

end OcvCore

